import Mathlib

/-!
# Verification of the ITF execution-environment core

This file contains a shallow embedding of the core of the `itf` repository
(the execution-environment backends in `score/itf/core/environment/` and the
console/line-reader machinery in `score/itf/core/process/console.py`) together
with theorems settling the specification claims about it.

Pure data manipulations (queues, command-line construction, pattern matching)
are translated directly; process- and filesystem-effecting code is embedded as
explicit state passing over small operational models whose inputs describe the
observations the Python code would make (process liveness, poll results,
filesystem contents), with the control flow translated from the source.
-/

/-! ## LineReaderQueue (console.py, class `LineReaderQueue`)

A deque of lines plus a `max_size`; `max_size = 0` means the queue is
unbounded.  The front of the list is the oldest element (`popleft` removes the
head, `append` adds at the tail). -/

structure LineReaderQueue where
  queue : List String
  max_size : Nat
deriving Repr, DecidableEq

/-- `LineReaderQueue.put` (console.py 340-345): when the queue is bounded
(`max_size > 0`) and full (`len(queue) >= max_size`), the oldest element is
popped from the left before the new item is appended on the right. -/
def LineReaderQueue.put (q : LineReaderQueue) (item : String) : LineReaderQueue :=
  if 0 < q.max_size ∧ q.max_size ≤ q.queue.length then
    { q with queue := q.queue.drop 1 ++ [item] }
  else
    { q with queue := q.queue ++ [item] }

/-- A sequence of `put` operations, oldest first. -/
def LineReaderQueue.putAll (q : LineReaderQueue) (items : List String) : LineReaderQueue :=
  items.foldl LineReaderQueue.put q

/-- A freshly constructed queue with capacity `c` (`LineReaderQueue.__init__`). -/
def LineReaderQueue.mk0 (c : Nat) : LineReaderQueue := ⟨[], c⟩

theorem LineReaderQueue.put_max_size (q : LineReaderQueue) (x : String) :
    (q.put x).max_size = q.max_size := by
  unfold LineReaderQueue.put
  split <;> rfl

theorem LineReaderQueue.put_queue_of_zero (q : LineReaderQueue) (x : String)
    (h : q.max_size = 0) : (q.put x).queue = q.queue ++ [x] := by
  unfold LineReaderQueue.put
  rw [if_neg]
  simp [h]

theorem LineReaderQueue.putAll_zero (l : List String) :
    ∀ q : LineReaderQueue, q.max_size = 0 → (q.putAll l).queue = q.queue ++ l := by
  induction l with
  | nil => intro q _; simp [LineReaderQueue.putAll]
  | cons x l ih =>
    intro q h
    show ((q.put x).putAll l).queue = _
    rw [ih (q.put x) (by rw [LineReaderQueue.put_max_size]; exact h),
      LineReaderQueue.put_queue_of_zero q x h]
    simp

theorem LineReaderQueue.putAll_drop (c : Nat) (hc : 0 < c) (l : List String) :
    ∀ q : LineReaderQueue, q.max_size = c → q.queue.length ≤ c →
      (q.putAll l).queue = (q.queue ++ l).drop (q.queue.length + l.length - c) := by
  induction l with
  | nil =>
    intro q _ hlen
    have h0 : q.queue.length - c = 0 := by omega
    simp [LineReaderQueue.putAll, h0]
  | cons x l ih =>
    intro q hsize hlen
    show ((q.put x).putAll l).queue = _
    by_cases hfull : c ≤ q.queue.length
    · -- the queue is exactly full: put drops the oldest element first
      have hexact : q.queue.length = c := le_antisymm hlen hfull
      have hput : (q.put x).queue = q.queue.drop 1 ++ [x] := by
        unfold LineReaderQueue.put
        have hcond : 0 < q.max_size ∧ q.max_size ≤ q.queue.length := by
          rw [hsize]; exact ⟨hc, hfull⟩
        rw [if_pos hcond]
      have hne : q.queue ≠ [] := by
        intro hnil; rw [hnil] at hexact; simp at hexact; omega
      obtain ⟨a, t, hq⟩ := List.exists_cons_of_ne_nil hne
      have hlc : t.length + 1 = c := by rw [hq] at hexact; simpa using hexact
      have hlen' : (q.put x).queue.length ≤ c := by
        rw [hput, hq]
        simp
        omega
      rw [ih (q.put x) (by rw [LineReaderQueue.put_max_size]; exact hsize) hlen']
      rw [hput, hq]
      have e1 : (List.drop 1 (a :: t) ++ [x]).length + l.length - c = l.length := by
        simp
        omega
      have e2 : (a :: t).length + (x :: l).length - c = l.length + 1 := by
        simp
        omega
      rw [e1, e2]
      simp only [List.drop_succ_cons, List.drop_zero, List.cons_append, List.append_assoc,
        List.singleton_append, List.nil_append]
    · -- the queue has room: put is a plain append
      have hput : (q.put x).queue = q.queue ++ [x] := by
        unfold LineReaderQueue.put
        have hcond : ¬(0 < q.max_size ∧ q.max_size ≤ q.queue.length) := by
          rw [hsize]; intro h; exact hfull h.2
        rw [if_neg hcond]
      have hlen' : (q.put x).queue.length ≤ c := by
        rw [hput]
        simp
        omega
      rw [ih (q.put x) (by rw [LineReaderQueue.put_max_size]; exact hsize) hlen']
      rw [hput]
      have e3 : (q.queue ++ [x]).length + l.length - c
          = q.queue.length + (x :: l).length - c := by
        simp
        omega
      rw [e3]
      simp only [List.append_assoc, List.singleton_append]

/-- C1: For the bounded line queue (`LineReaderQueue`) with any capacity
`c > 0`, after any sequence of `put` operations starting from the empty queue
the queue's length never exceeds `c`, and pushing `n > c` lines leaves exactly
the last `c` lines pushed, in the order they were pushed (oldest evicted
first); with capacity `0` the queue is unbounded and no line is ever
evicted. -/
theorem C1_bounded_line_queue (c : Nat) (lines : List String) :
    (0 < c →
      ((LineReaderQueue.mk0 c).putAll lines).queue.length ≤ c ∧
      (c < lines.length →
        ((LineReaderQueue.mk0 c).putAll lines).queue = lines.drop (lines.length - c))) ∧
    (c = 0 → ((LineReaderQueue.mk0 c).putAll lines).queue = lines) := by
  constructor
  · intro hc
    have hdrop := LineReaderQueue.putAll_drop c hc lines (LineReaderQueue.mk0 c) rfl
      (by show List.length [] ≤ c; simp)
    rw [show (LineReaderQueue.mk0 c).queue = [] from rfl] at hdrop
    simp only [List.nil_append, List.length_nil, Nat.zero_add] at hdrop
    constructor
    · rw [hdrop]
      simp only [List.length_drop]
      omega
    · intro _; exact hdrop
  · intro hc
    have hz := LineReaderQueue.putAll_zero lines (LineReaderQueue.mk0 c) (by rw [hc]; rfl)
    rw [hz, show (LineReaderQueue.mk0 c).queue = [] from rfl]
    simp

/-- Witness for C1 at capacity 2 with three pushed lines: the queue holds
exactly the last two lines, in order. -/
theorem C1_bounded_line_queue_witness :
    ((LineReaderQueue.mk0 2).putAll ["l1", "l2", "l3"]).queue = ["l2", "l3"] :=
  ((C1_bounded_line_queue 2 ["l1", "l2", "l3"]).1 (by decide)).2 (by decide)

/-! ## BwrapEnvironment process-tree discovery (bwrap.py, `_find_application` / `execute`)

`_find_application` runs a depth-first walk over the supervisor's children,
retried by `tenacity` on a fixed delay (`wait_fixed(retry_delay)`) with
`stop_after_attempt(retry_count)` and `reraise=True`.  One attempt either
finds a child, returns "no child" when the supervisor's `poll()` shows it has
exited, or raises (the retried error).  The attempt-indexed observations of
the process tree are the model's input. -/

/-- The error raised when the retry budget is exhausted while the supervisor
is alive (`RuntimeError("Could not find target child process: ...")`; the
spec's `ProcessDiscoveryTimeout`). -/
inductive BwrapError where
  | processDiscoveryTimeout (target : String) : BwrapError
deriving Repr, DecidableEq

/-- Attempt-indexed observations made by discovery: what the child-tree walk
returns on attempt `i`, and whether `parent.poll()` reports the supervisor as
already exited on attempt `i`. -/
structure DiscoveryTrace where
  walkResult : Nat → Option Nat
  parentExited : Nat → Bool

/-- One `tenacity` run of `_inner` with `fuel` attempts remaining, the next
attempt being number `i`. -/
def findApplicationGo (tr : DiscoveryTrace) (target : String) (i : Nat) :
    Nat → Except BwrapError (Option Nat)
  | 0 => .error (.processDiscoveryTimeout target)
  | fuel + 1 =>
    match tr.walkResult i with
    | some pid => .ok (some pid)
    | none =>
      if tr.parentExited i then .ok none
      else findApplicationGo tr target (i + 1) fuel

/-- `BwrapEnvironment._find_application` with `retry_count` attempts. -/
def findApplication (tr : DiscoveryTrace) (target : String) (retryCount : Nat) :
    Except BwrapError (Option Nat) :=
  findApplicationGo tr target 0 retryCount

/-- The child-discovery portion of `BwrapEnvironment.execute` (bwrap.py
139-145): discovery failures are caught, and re-raised only when
`parent_proc.is_running()` is false at the catch site; otherwise the handle is
built with no child reference. -/
def executeChildDiscovery (tr : DiscoveryTrace) (target : String) (retryCount : Nat)
    (parentRunningAtCatch : Bool) : Except BwrapError (Option Nat) :=
  match findApplication tr target retryCount with
  | .ok c => .ok c
  | .error e => if parentRunningAtCatch then .ok none else .error e

theorem findApplicationGo_error (tr : DiscoveryTrace) (target : String) :
    ∀ fuel i, (∀ j, j < fuel → tr.walkResult (i + j) = none ∧ tr.parentExited (i + j) = false) →
      findApplicationGo tr target i fuel = .error (.processDiscoveryTimeout target) := by
  intro fuel
  induction fuel with
  | zero => intro i _; rfl
  | succ fuel ih =>
    intro i h
    have h0 := h 0 (by omega)
    simp only [Nat.add_zero] at h0
    show findApplicationGo tr target i (fuel + 1) = _
    unfold findApplicationGo
    rw [h0.1, h0.2]
    simp only [Bool.false_eq_true, if_false]
    exact ih (i + 1) (fun j hj => by
      have := h (j + 1) (by omega)
      constructor
      · rw [show i + 1 + j = i + (j + 1) by omega]; exact this.1
      · rw [show i + 1 + j = i + (j + 1) by omega]; exact this.2)

theorem findApplicationGo_exit (tr : DiscoveryTrace) (target : String) :
    ∀ fuel i k, k < fuel → (∀ j, j ≤ k → tr.walkResult (i + j) = none) →
      (∀ j, j < k → tr.parentExited (i + j) = false) → tr.parentExited (i + k) = true →
      findApplicationGo tr target i fuel = .ok none := by
  intro fuel
  induction fuel with
  | zero => intro i k hk; omega
  | succ fuel ih =>
    intro i k hk hw hp hx
    show findApplicationGo tr target i (fuel + 1) = _
    unfold findApplicationGo
    have hw0 := hw 0 (by omega)
    simp only [Nat.add_zero] at hw0
    rw [hw0]
    match k, hk with
    | 0, _ =>
      simp only [Nat.add_zero] at hx
      rw [hx]
      simp
    | k + 1, hk =>
      have hp0 := hp 0 (by omega)
      simp only [Nat.add_zero] at hp0
      rw [hp0]
      simp only [Bool.false_eq_true, if_false]
      exact ih (i + 1) k (by omega)
        (fun j hj => by
          rw [show i + 1 + j = i + (j + 1) by omega]; exact hw (j + 1) (by omega))
        (fun j hj => by
          rw [show i + 1 + j = i + (j + 1) by omega]; exact hp (j + 1) (by omega))
        (by rw [show i + 1 + k = i + (k + 1) by omega]; exact hx)

theorem findApplicationGo_found (tr : DiscoveryTrace) (target : String) (pid : Nat) :
    ∀ fuel i k, k < fuel →
      (∀ j, j < k → tr.walkResult (i + j) = none ∧ tr.parentExited (i + j) = false) →
      tr.walkResult (i + k) = some pid →
      findApplicationGo tr target i fuel = .ok (some pid) := by
  intro fuel
  induction fuel with
  | zero => intro i k hk; omega
  | succ fuel ih =>
    intro i k hk h hres
    show findApplicationGo tr target i (fuel + 1) = _
    unfold findApplicationGo
    match k, hk with
    | 0, _ =>
      simp only [Nat.add_zero] at hres
      rw [hres]
    | k + 1, hk =>
      have h0 := h 0 (by omega)
      simp only [Nat.add_zero] at h0
      rw [h0.1, h0.2]
      simp only [Bool.false_eq_true, if_false]
      exact ih (i + 1) k (by omega)
        (fun j hj => by
          rw [show i + 1 + j = i + (j + 1) by omega]; exact h (j + 1) (by omega))
        (by rw [show i + 1 + k = i + (k + 1) by omega]; exact hres)

/-- A trace in which the walk never finds a child and the supervisor never
exits. -/
def c2StuckTrace : DiscoveryTrace := ⟨fun _ => none, fun _ => false⟩

/-- C2 counterexample: with a retry budget of 3, a walk that never finds the
child, and a supervisor that stays alive throughout, discovery does fail with
the discovery-timeout error — but `execute` (whose catch site observes the
supervisor still running) swallows that failure and yields a handle with no
child reference instead of surfacing it, contradicting the claim that the
failure is surfaced to the caller of `execute`. -/
theorem C2_discovery_counterexample :
    findApplication c2StuckTrace "target_app" 3
        = .error (.processDiscoveryTimeout "target_app") ∧
    executeChildDiscovery c2StuckTrace "target_app" 3 true = .ok none ∧
    executeChildDiscovery c2StuckTrace "target_app" 3 true
        ≠ .error (.processDiscoveryTimeout "target_app") :=
  ⟨rfl, rfl, fun h => Except.noConfusion h⟩

/-- C2 (amended): the walk over the supervisor's children is retried up to a
bounded attempt count; if the supervisor has already exited before a match is
found, discovery returns no child and `execute` yields a handle with no child
reference; if the supervisor is still alive when the attempt budget is
exhausted, discovery fails with `ProcessDiscoveryTimeout`, but `execute`
catches that failure and surfaces it only when the supervisor is no longer
running at the catch site — when the supervisor is still running, `execute`
yields a handle with no child reference instead. -/
theorem C2_discovery_amended (tr : DiscoveryTrace) (target : String) (n : Nat) :
    ((∀ i, i < n → tr.walkResult i = none ∧ tr.parentExited i = false) →
      findApplication tr target n = .error (.processDiscoveryTimeout target) ∧
      executeChildDiscovery tr target n true = .ok none ∧
      executeChildDiscovery tr target n false
        = .error (.processDiscoveryTimeout target)) ∧
    (∀ k, k < n → (∀ j, j ≤ k → tr.walkResult j = none) →
      (∀ j, j < k → tr.parentExited j = false) → tr.parentExited k = true →
      findApplication tr target n = .ok none ∧
      ∀ alive, executeChildDiscovery tr target n alive = .ok none) ∧
    (∀ k pid, k < n →
      (∀ j, j < k → tr.walkResult j = none ∧ tr.parentExited j = false) →
      tr.walkResult k = some pid →
      findApplication tr target n = .ok (some pid) ∧
      ∀ alive, executeChildDiscovery tr target n alive = .ok (some pid)) := by
  refine ⟨?_, ?_, ?_⟩
  · intro h
    have herr : findApplication tr target n = .error (.processDiscoveryTimeout target) :=
      findApplicationGo_error tr target n 0 (fun j hj => by
        simpa using h j hj)
    refine ⟨herr, ?_, ?_⟩ <;> simp [executeChildDiscovery, herr]
  · intro k hk hw hp hx
    have hok : findApplication tr target n = .ok none :=
      findApplicationGo_exit tr target n 0 k hk
        (fun j hj => by simpa using hw j hj)
        (fun j hj => by simpa using hp j hj)
        (by simpa using hx)
    exact ⟨hok, fun alive => by simp [executeChildDiscovery, hok]⟩
  · intro k pid hk h hres
    have hok : findApplication tr target n = .ok (some pid) :=
      findApplicationGo_found tr target pid n 0 k hk
        (fun j hj => by simpa using h j hj)
        (by simpa using hres)
    exact ⟨hok, fun alive => by simp [executeChildDiscovery, hok]⟩

/-- Witness for the amended C2 theorem, at concrete traces: a supervisor that
exits on attempt 1 gives a no-child handle; a child found on attempt 1 is
returned; a stuck trace exhausts the budget of 2. -/
theorem C2_discovery_amended_witness :
    findApplication ⟨fun _ => none, fun i => decide (i = 1)⟩ "app" 4 = .ok none ∧
    findApplication ⟨fun i => if i = 1 then some 42 else none, fun _ => false⟩ "app" 4
      = .ok (some 42) ∧
    executeChildDiscovery c2StuckTrace "app" 2 false
      = .error (.processDiscoveryTimeout "app") := by
  refine ⟨?_, ?_, ?_⟩
  · exact (((C2_discovery_amended ⟨fun _ => none, fun i => decide (i = 1)⟩ "app" 4).2.1)
      1 (by omega) (fun j _ => rfl)
      (fun j hj => by
        have hj0 : j = 0 := by omega
        subst hj0
        rfl)
      (by rfl)).1
  · exact (((C2_discovery_amended
        ⟨fun i => if i = 1 then some 42 else none, fun _ => false⟩ "app" 4).2.2)
      1 42 (by omega)
      (fun j hj => by
        have hj0 : j = 0 := by omega
        subst hj0
        exact ⟨rfl, rfl⟩)
      (by rfl)).1
  · exact ((C2_discovery_amended c2StuckTrace "app" 2).1
      (fun i _ => ⟨rfl, rfl⟩)).2.2

/-! ## BwrapEnvironment termination (bwrap.py, `_stop_child` / `_stop_parent` /
`stop_process`) and NoopEnvironment termination (noop.py, `stop_process`)

The psutil process objects are modelled by records describing the observations
the code would make: whether the process still exists when `terminate()` is
called (a reaped process raises `NoSuchProcess`), during which one-second wait
slice the child exits after SIGTERM (if at all), and what `parent.wait(...)`
returns (`none` modelling a raised `TimeoutExpired`; a reaped `psutil.Popen`
returns its cached return code without error).  Each stop routine yields the
ordered list of process-control calls it makes plus its result. -/

/-- Observed behaviour of the discovered child process during `_stop_child`. -/
structure ChildSim where
  aliveAtTerminate : Bool
  exitSlice : Option Nat
deriving Repr, DecidableEq

/-- Observed behaviour of the supervisor (`psutil.Popen` parent). -/
structure ParentSim where
  aliveAtTerminate : Bool
  waitResult : Option Int
  killCode : Int
deriving Repr, DecidableEq

/-- The process-control calls issued by the stop routines, in order. -/
inductive StopAction where
  | terminateChild
  | waitChildSlice
  | killChild
  | waitChild
  | terminateParent
  | waitParentTimeout
  | killParent
  | waitParent
deriving Repr, DecidableEq

/-- psutil exceptions that can escape the stop routines. -/
inductive PsError where
  | noSuchProcess
  | timeoutExpired
deriving Repr, DecidableEq

/-- Number of `child.wait(1)` slices executed by `_stop_child`'s loop: none if
`terminate()` already raised `NoSuchProcess`; otherwise the loop breaks at the
slice in which the child exits, running at most 5 slices. -/
def childWaitSlices (c : ChildSim) : Nat :=
  if c.aliveAtTerminate then
    match c.exitSlice with
    | some k => min (k + 1) 5
    | none => 5
  else 0

/-- Whether `child.is_running()` still holds at the `finally` block of
`_stop_child` (the child neither was gone at terminate time nor exited during
the five slices). -/
def childStillRunning (c : ChildSim) : Bool :=
  c.aliveAtTerminate &&
    (match c.exitSlice with
     | some k => decide (5 ≤ k)
     | none => true)

/-- `BwrapEnvironment._stop_child` (bwrap.py 339-358): terminate the child,
poll `child.wait(1)` up to five times, SIGKILL the child if still running,
then return `parent.wait(timeout)` — the exit code comes from the
supervisor. -/
def stopChild (c : ChildSim) (p : ParentSim) : List StopAction × Except PsError Int :=
  let pollActs := StopAction.terminateChild ::
    List.replicate (childWaitSlices c) StopAction.waitChildSlice
  let killActs := if childStillRunning c then
    [StopAction.killChild, StopAction.waitChild] else []
  let acts := pollActs ++ killActs ++ [StopAction.waitParentTimeout]
  match p.waitResult with
  | some code => (acts, .ok code)
  | none => (acts, .error .timeoutExpired)

/-- `BwrapEnvironment._stop_parent` (bwrap.py 360-369): terminate the
supervisor, wait once up to `timeout`, escalating to SIGKILL (then an
unbounded wait) when the timeout expires.  `terminate()` on an
already-reaped process raises `NoSuchProcess`, which this routine does not
catch. -/
def stopParent (p : ParentSim) : List StopAction × Except PsError Int :=
  if p.aliveAtTerminate then
    match p.waitResult with
    | some code => ([StopAction.terminateParent, StopAction.waitParentTimeout], .ok code)
    | none =>
      ([StopAction.terminateParent, StopAction.waitParentTimeout,
        StopAction.killParent, StopAction.waitParent], .ok p.killCode)
  else ([StopAction.terminateParent], .error .noSuchProcess)

/-- The bwrap `ProcessHandle`: optional discovered child, supervisor, and the
exit-code field set by `stop_process`. -/
structure BwrapHandle where
  child : Option ChildSim
  parent : ParentSim
  exit_code : Option Int
deriving Repr, DecidableEq

/-- `BwrapEnvironment.stop_process` (bwrap.py 157-173): dispatch on whether a
child was discovered; on success record the exit code on the handle (a raised
exception leaves the handle untouched). -/
def bwrapStopProcess (h : BwrapHandle) : List StopAction × Except PsError Int × BwrapHandle :=
  let (acts, r) :=
    match h.child with
    | some c => stopChild c h.parent
    | none => stopParent h.parent
  match r with
  | .ok code => (acts, .ok code, { h with exit_code := some code })
  | .error e => (acts, .error e, h)


theorem childWaitSlices_le (c : ChildSim) : childWaitSlices c ≤ 5 := by
  unfold childWaitSlices
  split
  · cases c.exitSlice with
    | none => simp
    | some k => simp
  · omega

/-- C3 counterexample: on a no-child handle whose supervisor has already
exited and been reaped (the benign fast-exit case in which discovery returned
no child — `parent.poll()` inside `_find_application` collected it),
`stop_process` does not perform the claimed single wait with force-kill
escalation: `_stop_parent`'s `parent.terminate()` raises `NoSuchProcess`,
which only catches `TimeoutExpired`, so the error escapes after the bare
terminate attempt — no wait, no escalation, and no exit code is returned. -/
theorem C3_stop_process_counterexample :
    bwrapStopProcess ⟨none, ⟨false, none, 0⟩, none⟩
      = ([StopAction.terminateParent], .error .noSuchProcess,
         ⟨none, ⟨false, none, 0⟩, none⟩) ∧
    StopAction.waitParentTimeout ∉ (bwrapStopProcess ⟨none, ⟨false, none, 0⟩, none⟩).1 ∧
    StopAction.killParent ∉ (bwrapStopProcess ⟨none, ⟨false, none, 0⟩, none⟩).1 := by
  refine ⟨rfl, ?_, ?_⟩ <;> decide

/-- C3 (amended): for every handle of the namespace-sandbox backend: if a
child was discovered, the stop action sequence is exactly — graceful-stop
signal to the child first, then its exit polled in `childWaitSlices c`
one-second slices (at most five; exactly five when the child never exits),
then a force-kill precisely when the child is still alive after the polls,
then a wait on the supervisor — and the returned exit code is read from the
supervisor process, the supervisor itself never being signalled.  If no child
was ever discovered and the supervisor process still exists, the supervisor
is sent the graceful-stop signal with a single wait up to the timeout,
escalating to force-kill exactly when that wait expires.  If no child was
ever discovered and the supervisor has already been reaped, the graceful-stop
attempt raises `NoSuchProcess` uncaught and no exit code is returned. -/
theorem C3_stop_process_amended (h : BwrapHandle) :
    (∀ c, h.child = some c →
      (bwrapStopProcess h).1
        = StopAction.terminateChild ::
            (List.replicate (childWaitSlices c) StopAction.waitChildSlice ++
              ((if childStillRunning c = true then
                  [StopAction.killChild, StopAction.waitChild] else []) ++
                [StopAction.waitParentTimeout])) ∧
      childWaitSlices c ≤ 5 ∧
      (c.aliveAtTerminate = true → c.exitSlice = none → childWaitSlices c = 5) ∧
      (StopAction.killChild ∈ (bwrapStopProcess h).1 ↔ childStillRunning c = true) ∧
      (∀ code, (bwrapStopProcess h).2.1 = .ok code → h.parent.waitResult = some code) ∧
      StopAction.terminateParent ∉ (bwrapStopProcess h).1 ∧
      StopAction.killParent ∉ (bwrapStopProcess h).1) ∧
    (h.child = none → h.parent.aliveAtTerminate = true →
      ((bwrapStopProcess h).1
          = [StopAction.terminateParent, StopAction.waitParentTimeout] ∨
        (bwrapStopProcess h).1
          = [StopAction.terminateParent, StopAction.waitParentTimeout,
             StopAction.killParent, StopAction.waitParent]) ∧
      (bwrapStopProcess h).1.head? = some .terminateParent ∧
      (StopAction.killParent ∈ (bwrapStopProcess h).1 ↔ h.parent.waitResult = none) ∧
      (bwrapStopProcess h).2.1
        = .ok (h.parent.waitResult.getD h.parent.killCode)) ∧
    (h.child = none → h.parent.aliveAtTerminate = false →
      bwrapStopProcess h
        = ([StopAction.terminateParent], .error .noSuchProcess, h)) := by
  refine ⟨?_, ?_, ?_⟩
  · intro c hchild
    have hacts : (bwrapStopProcess h).1
        = StopAction.terminateChild ::
            (List.replicate (childWaitSlices c) StopAction.waitChildSlice ++
              ((if childStillRunning c = true then
                  [StopAction.killChild, StopAction.waitChild] else []) ++
                [StopAction.waitParentTimeout])) := by
      cases hw : h.parent.waitResult <;>
        simp [bwrapStopProcess, hchild, stopChild, hw]
    refine ⟨hacts, childWaitSlices_le c, ?_, ?_, ?_, ?_, ?_⟩
    · intro ha hs
      simp [childWaitSlices, ha, hs]
    · rw [hacts]
      by_cases hrun : childStillRunning c = true <;>
        simp [hrun, List.mem_replicate]
    · intro code hcode
      cases hw : h.parent.waitResult with
      | none => simp [bwrapStopProcess, hchild, stopChild, hw] at hcode
      | some c0 =>
        simp [bwrapStopProcess, hchild, stopChild, hw] at hcode
        simp [hcode]
    · rw [hacts]
      by_cases hrun : childStillRunning c = true <;>
        simp [hrun, List.mem_replicate]
    · rw [hacts]
      by_cases hrun : childStillRunning c = true <;>
        simp [hrun, List.mem_replicate]
  · intro hchild halive
    cases hw : h.parent.waitResult with
    | none =>
      refine ⟨Or.inr ?_, ?_, ?_, ?_⟩ <;>
        simp [bwrapStopProcess, hchild, stopParent, halive, hw]
    | some c0 =>
      refine ⟨Or.inl ?_, ?_, ?_, ?_⟩ <;>
        simp [bwrapStopProcess, hchild, stopParent, halive, hw]
  · intro hchild hgone
    simp [bwrapStopProcess, hchild, stopParent, hgone]

/-- Witness for the amended C3 theorem on concrete handles: a discovered
child that ignores the graceful stop (all five slices run, it is
force-killed, the supervisor reports exit code 137), an alive no-child
supervisor stopped by the single wait with exit code 0, and a reaped
no-child supervisor on which the terminate attempt errors. -/
theorem C3_stop_process_amended_witness :
    (bwrapStopProcess ⟨some ⟨true, none⟩, ⟨true, some 137, 0⟩, none⟩).1
        = [StopAction.terminateChild, StopAction.waitChildSlice,
           StopAction.waitChildSlice, StopAction.waitChildSlice,
           StopAction.waitChildSlice, StopAction.waitChildSlice,
           StopAction.killChild, StopAction.waitChild,
           StopAction.waitParentTimeout] ∧
    (bwrapStopProcess ⟨some ⟨true, none⟩, ⟨true, some 137, 0⟩, none⟩).2.1
        = .ok 137 ∧
    (bwrapStopProcess ⟨none, ⟨true, some 0, 9⟩, none⟩).2.1 = .ok 0 ∧
    (bwrapStopProcess ⟨none, ⟨false, some 4, 9⟩, none⟩).2.1
        = .error .noSuchProcess := by
  have hmain := (C3_stop_process_amended
    ⟨some ⟨true, none⟩, ⟨true, some 137, 0⟩, none⟩).1 ⟨true, none⟩ rfl
  have halive := (C3_stop_process_amended ⟨none, ⟨true, some 0, 9⟩, none⟩).2.1
    rfl rfl
  have hgone := (C3_stop_process_amended ⟨none, ⟨false, some 4, 9⟩, none⟩).2.2
    rfl rfl
  refine ⟨?_, rfl, ?_, ?_⟩
  · rw [hmain.1]
    rfl
  · exact halive.2.2.2
  · rw [hgone]
/-! ## NoopEnvironment termination (noop.py, `stop_process`)

The direct backend first checks `proc.is_running()`; for an already-finished
process it only collects the exit code with `proc.wait(timeout=0)` and sends
no signal.  Otherwise it terminates, waits up to the timeout, and escalates
to SIGKILL on expiry. -/

/-- Observed behaviour of the host process run by the direct backend. -/
structure NoopProcSim where
  running : Bool
  cachedCode : Int
  waitResult : Option Int
  killCode : Int
deriving Repr, DecidableEq

/-- Process-control calls made by `NoopEnvironment.stop_process`. -/
inductive NoopAction where
  | waitZero
  | terminateProc
  | waitTimeout
  | killProc
  | waitPlain
deriving Repr, DecidableEq

/-- `NoopEnvironment.stop_process` (noop.py 104-128), acting on the process
observations; yields the call list and the exit code. -/
def noopStopProcess (p : NoopProcSim) : List NoopAction × Int :=
  if p.running = false then ([NoopAction.waitZero], p.cachedCode)
  else
    match p.waitResult with
    | some code => ([NoopAction.terminateProc, NoopAction.waitTimeout], code)
    | none =>
      ([NoopAction.terminateProc, NoopAction.waitTimeout,
        NoopAction.killProc, NoopAction.waitPlain], p.killCode)

/-- The direct backend's `ProcessHandle` with its exit-code field. -/
structure NoopHandle where
  parent : NoopProcSim
  exit_code : Option Int
deriving Repr, DecidableEq

/-- `NoopEnvironment.stop_process` including the `handle.exit_code` update. -/
def noopStop (h : NoopHandle) : List NoopAction × Int × NoopHandle :=
  let (acts, code) := noopStopProcess h.parent
  (acts, code, { h with exit_code := some code })

/-- A bwrap handle on which `stop_process` has already completed: no child was
ever discovered, the supervisor has been reaped (so a new `terminate()` raises
`NoSuchProcess`), and the exit code 0 is cached on the handle. -/
def c4StoppedHandle : BwrapHandle := ⟨none, ⟨false, some 0, 0⟩, some 0⟩

/-- C4 counterexample: on the namespace backend, a second `stop_process` on an
already-stopped handle with no discovered child re-runs `_stop_parent`, whose
uncaught `parent.terminate()` on the reaped supervisor raises `NoSuchProcess`
— it does not return the cached exit code 0, refuting the claimed idempotency
for every backend. -/
theorem C4_idempotent_stop_counterexample :
    (bwrapStopProcess c4StoppedHandle).2.1 = .error .noSuchProcess ∧
    (bwrapStopProcess c4StoppedHandle).2.1 ≠ .ok 0 ∧
    StopAction.terminateParent ∈ (bwrapStopProcess c4StoppedHandle).1 := by
  refine ⟨rfl, fun h => Except.noConfusion h, ?_⟩
  show StopAction.terminateParent ∈ [StopAction.terminateParent]
  simp

/-- C4 (amended): the direct backend's `stop_process` is idempotent — a second
call on an already-stopped handle collects the exit code without sending any
signal and leaves the handle's exit code value unchanged.  The namespace
backend re-runs its stop path instead: with a discovered child it re-attempts
a graceful stop (the child is gone, so nothing is delivered, no poll slices
run, no kill happens) and returns the supervisor's cached exit code, leaving
the handle's exit-code value unchanged; with no discovered child the second
call raises `NoSuchProcess` instead of returning the cached code, leaving the
handle untouched. -/
theorem C4_idempotent_stop_amended :
    (∀ (p : NoopProcSim) (code : Int), p.running = false → p.cachedCode = code →
      noopStop ⟨p, some code⟩ = ([NoopAction.waitZero], code, ⟨p, some code⟩)) ∧
    (∀ (c : ChildSim) (p : ParentSim) (code : Int),
      c.aliveAtTerminate = false → p.waitResult = some code →
      bwrapStopProcess ⟨some c, p, some code⟩
        = ([StopAction.terminateChild, StopAction.waitParentTimeout], .ok code,
           ⟨some c, p, some code⟩)) ∧
    (∀ (p : ParentSim) (cached : Int), p.aliveAtTerminate = false →
      bwrapStopProcess ⟨none, p, some cached⟩
        = ([StopAction.terminateParent], .error .noSuchProcess,
           ⟨none, p, some cached⟩)) := by
  refine ⟨?_, ?_, ?_⟩
  · intro p code hrun hcached
    simp [noopStop, noopStopProcess, hrun, hcached]
  · intro c p code hgone hwait
    simp [bwrapStopProcess, stopChild, childWaitSlices, childStillRunning, hgone, hwait]
  · intro p cached hgone
    simp [bwrapStopProcess, stopParent, hgone]

/-- Witness for the amended C4 theorem at concrete stopped handles. -/
theorem C4_idempotent_stop_amended_witness :
    noopStop ⟨⟨false, 7, none, 0⟩, some 7⟩
      = ([NoopAction.waitZero], 7, ⟨⟨false, 7, none, 0⟩, some 7⟩) ∧
    bwrapStopProcess ⟨some ⟨false, none⟩, ⟨false, some 3, 0⟩, some 3⟩
      = ([StopAction.terminateChild, StopAction.waitParentTimeout], .ok 3,
         ⟨some ⟨false, none⟩, ⟨false, some 3, 0⟩, some 3⟩) ∧
    bwrapStopProcess ⟨none, ⟨false, none, 5⟩, some 9⟩
      = ([StopAction.terminateParent], .error .noSuchProcess,
         ⟨none, ⟨false, none, 5⟩, some 9⟩) :=
  ⟨C4_idempotent_stop_amended.1 ⟨false, 7, none, 0⟩ 7 rfl rfl,
   C4_idempotent_stop_amended.2.1 ⟨false, none⟩ ⟨false, some 3, 0⟩ 3 rfl rfl,
   C4_idempotent_stop_amended.2.2 ⟨false, none, 5⟩ 9 rfl⟩

/-! ## Pre-launch executable verification (bwrap.py `_check_binary_path`,
noop.py `execute`)

The filesystem observations (`os.path.isfile`, `os.access(..., X_OK)`,
whether `os.chmod(..., S_IXOTH)` succeeds) are the model's input. -/

/-- Host filesystem observations used by the executable checks. -/
structure HostFsCheck where
  isFile : String → Bool
  isExec : String → Bool
  chmodOk : String → Bool

/-- `os.path.isabs` on POSIX (the path begins with a separator).  Implemented
on the underlying character list so that it evaluates by reduction. -/
def isAbsPath (p : String) : Bool :=
  match p.data with
  | [] => false
  | c :: _ => c = '/'

/-- Whether a path already ends in a separator. -/
def endsWithSep (a : String) : Bool :=
  match a.data.getLast? with
  | some c => c = '/'
  | none => false

/-- `os.path.join(a, b)` for the cases exercised here: an absolute `b` wins;
a relative `b` is appended with a single separator inserted unless `a`
already ends in one. -/
def pyPathJoin (a b : String) : String :=
  if isAbsPath b then b
  else if endsWithSep a then a ++ b else a ++ "/" ++ b

/-- The host-mapped candidate path built by `_check_binary_path` (bwrap.py
275-284): plain string concatenation for absolute components, `os.path.join`
for relative ones. -/
def mappedBinaryPath (sysroot cwd path : String) : String :=
  let s := if isAbsPath cwd then sysroot ++ cwd else pyPathJoin sysroot cwd
  if isAbsPath path then s ++ path else pyPathJoin s path

/-- The local recovery action attempted by `_check_binary_path`. -/
inductive CheckAction where
  | chmodSetExec (p : String)
deriving Repr, DecidableEq

/-- `BwrapEnvironment._check_binary_path` (bwrap.py 274-290): if the mapped
path is not an executable file, attempt `os.chmod(sandboxed, S_IXOTH)` once
and raise only when that attempt also fails. -/
def checkBinaryPath (fs : HostFsCheck) (sysroot cwd path : String) :
    List CheckAction × Except String Unit :=
  let sandboxed := mappedBinaryPath sysroot cwd path
  if fs.isFile sandboxed && fs.isExec sandboxed then ([], .ok ())
  else if fs.chmodOk sandboxed then ([.chmodSetExec sandboxed], .ok ())
  else ([.chmodSetExec sandboxed],
    .error ("File is not a valid executable: " ++ sandboxed))

/-- `NoopEnvironment.execute`'s pre-launch verification (noop.py 77-79): no
recovery attempt. -/
def noopCheckBinary (fs : HostFsCheck) (path : String) : Except String Unit :=
  if fs.isFile path && fs.isExec path then .ok ()
  else .error ("File is not a valid executable: " ++ path)

/-- `BwrapEnvironment.execute` runs `_check_binary_path` before building and
spawning the bwrap command; the process is launched exactly when the check
passes. -/
def bwrapExecuteLaunches (fs : HostFsCheck) (sysroot cwd path : String) : Bool :=
  match (checkBinaryPath fs sysroot cwd path).2 with
  | .ok _ => true
  | .error _ => false

/-- C5: the namespace and direct backends verify, on the host-mapped path and
before launch, that the target is an executable file.  When it is, no
recovery is attempted and the launch proceeds.  When it is not, the namespace
backend recovers locally exactly once by attempting to set the execute bit,
fails with the invalid-executable error exactly when that attempt also fails,
and launches nothing on failure; the direct backend fails immediately exactly
when the target is not an executable file. -/
theorem C5_invalid_executable (fs : HostFsCheck) (sysroot cwd path hostPath : String) :
    ((fs.isFile (mappedBinaryPath sysroot cwd path)
        && fs.isExec (mappedBinaryPath sysroot cwd path)) = true →
      checkBinaryPath fs sysroot cwd path = ([], .ok ()) ∧
      bwrapExecuteLaunches fs sysroot cwd path = true) ∧
    ((fs.isFile (mappedBinaryPath sysroot cwd path)
        && fs.isExec (mappedBinaryPath sysroot cwd path)) = false →
      (checkBinaryPath fs sysroot cwd path).1
        = [.chmodSetExec (mappedBinaryPath sysroot cwd path)]) ∧
    ((checkBinaryPath fs sysroot cwd path).2
        = .error ("File is not a valid executable: "
            ++ mappedBinaryPath sysroot cwd path) ↔
      (fs.isFile (mappedBinaryPath sysroot cwd path)
          && fs.isExec (mappedBinaryPath sysroot cwd path)) = false ∧
        fs.chmodOk (mappedBinaryPath sysroot cwd path) = false) ∧
    (bwrapExecuteLaunches fs sysroot cwd path = false ↔
      (fs.isFile (mappedBinaryPath sysroot cwd path)
          && fs.isExec (mappedBinaryPath sysroot cwd path)) = false ∧
        fs.chmodOk (mappedBinaryPath sysroot cwd path) = false) ∧
    (noopCheckBinary fs hostPath
        = .error ("File is not a valid executable: " ++ hostPath) ↔
      (fs.isFile hostPath && fs.isExec hostPath) = false) := by
  refine ⟨?_, ?_, ?_, ?_, ?_⟩
  · intro hgood
    constructor
    · simp [checkBinaryPath, hgood]
    · simp [bwrapExecuteLaunches, checkBinaryPath, hgood]
  · intro hbad
    by_cases hch : fs.chmodOk (mappedBinaryPath sysroot cwd path) = true <;>
      simp [checkBinaryPath, hbad, hch]
  · by_cases hgood : (fs.isFile (mappedBinaryPath sysroot cwd path)
        && fs.isExec (mappedBinaryPath sysroot cwd path)) = true
    · simp [checkBinaryPath, hgood]
    · by_cases hch : fs.chmodOk (mappedBinaryPath sysroot cwd path) = true <;>
        simp [checkBinaryPath, hgood, hch]
  · by_cases hgood : (fs.isFile (mappedBinaryPath sysroot cwd path)
        && fs.isExec (mappedBinaryPath sysroot cwd path)) = true
    · simp [bwrapExecuteLaunches, checkBinaryPath, hgood]
    · by_cases hch : fs.chmodOk (mappedBinaryPath sysroot cwd path) = true <;>
        simp [bwrapExecuteLaunches, checkBinaryPath, hgood, hch]
  · by_cases hgood : (fs.isFile hostPath && fs.isExec hostPath) = true <;>
      simp [noopCheckBinary, hgood]

/-- Witness for C5: a filesystem on which nothing is a file, nothing is
executable, and chmod always fails — the check on `/bin/app` under sysroot
`/sys` with cwd `/` attempts the one chmod recovery on the mapped path and
then raises; the direct backend raises immediately. -/
theorem C5_invalid_executable_witness :
    (checkBinaryPath ⟨fun _ => false, fun _ => false, fun _ => false⟩
        "/sys" "/" "/bin/app").1
      = [.chmodSetExec "/sys//bin/app"] ∧
    (checkBinaryPath ⟨fun _ => false, fun _ => false, fun _ => false⟩
        "/sys" "/" "/bin/app").2
      = .error "File is not a valid executable: /sys//bin/app" ∧
    noopCheckBinary ⟨fun _ => false, fun _ => false, fun _ => false⟩ "/bin/app"
      = .error "File is not a valid executable: /bin/app" := by
  have e : mappedBinaryPath "/sys" "/" "/bin/app" = "/sys//bin/app" := by decide
  refine ⟨?_, ?_, ?_⟩
  · have h := (C5_invalid_executable ⟨fun _ => false, fun _ => false, fun _ => false⟩
      "/sys" "/" "/bin/app" "/bin/app").2.1 rfl
    rw [e] at h
    exact h
  · have h := ((C5_invalid_executable ⟨fun _ => false, fun _ => false, fun _ => false⟩
      "/sys" "/" "/bin/app" "/bin/app").2.2.1).mpr ⟨rfl, rfl⟩
    rw [e] at h
    exact h
  · exact ((C5_invalid_executable ⟨fun _ => false, fun _ => false, fun _ => false⟩
      "/sys" "/" "/bin/app" "/bin/app").2.2.2.2).mpr rfl

/-! ## DockerEnvironment.stop_process (docker_env.py, 268-307)

The exec's state is observed through `exec_inspect`; the model's input is the
inspection result as a function of the inspection index (inspections happen at
the fixed 0.2 s interval).  The main polling window allows `pollBudget`
inspections (corresponding to `timeout`); after a kill the code re-polls for a
fixed 5 s window, `killBudget` inspections (25 at the coded interval). -/

/-- One `exec_inspect` result: the `Running` flag, the `ExitCode` field
(absent while Docker cannot determine it) and the in-container `Pid`
(`info.get("Pid", 0)`). -/
structure ExecInspect where
  running : Bool
  exitCode : Option Int
  pid : Nat
deriving Repr, DecidableEq

/-- The externally visible action of the timeout path: a `kill -9 <pid>` run
via a fresh exec inside the container. -/
inductive DockerAction where
  | killExec (pid : Nat)
deriving Repr, DecidableEq

/-- The main polling loop (`while time.monotonic() < deadline`): up to `fuel`
inspections starting at index `i`; returns the index at which the exec was
first observed not running. -/
def dockerMainPoll (inspect : Nat → ExecInspect) (i : Nat) : Nat → Option Nat
  | 0 => none
  | fuel + 1 =>
    if (inspect i).running = false then some i
    else dockerMainPoll inspect (i + 1) fuel

/-- The post-kill re-poll loop: up to `fuel` further inspections; `prev` is
the inspection result in hand if the window closes without observing
completion (the loop's `info` variable). -/
def dockerKillPoll (inspect : Nat → ExecInspect) (prev : ExecInspect) (i : Nat) :
    Nat → ExecInspect
  | 0 => prev
  | fuel + 1 =>
    let info := inspect i
    if info.running = false then info
    else dockerKillPoll inspect info (i + 1) fuel

/-- `DockerEnvironment.stop_process`: poll until the exec completes or the
window closes; on timeout re-inspect, kill the in-container PID when the
runtime exposes one (and a container is attached), re-poll briefly, and report
the final `ExitCode`, or the sentinel `-9` when Docker still cannot determine
it. -/
def dockerStopProcess (inspect : Nat → ExecInspect) (pollBudget killBudget : Nat)
    (hasContainer : Bool) : List DockerAction × Option Int :=
  match dockerMainPoll inspect 0 pollBudget with
  | some i => ([], (inspect i).exitCode)
  | none =>
    let info := inspect pollBudget
    let acts := if info.pid ≠ 0 ∧ hasContainer = true then
      [DockerAction.killExec info.pid] else []
    let finalInfo := dockerKillPoll inspect info (pollBudget + 1) killBudget
    (acts, some (finalInfo.exitCode.getD (-9)))

theorem dockerMainPoll_running (inspect : Nat → ExecInspect) :
    ∀ fuel i j, dockerMainPoll inspect i fuel = some j → (inspect j).running = false := by
  intro fuel
  induction fuel with
  | zero => intro i j h; exact absurd h (by simp [dockerMainPoll])
  | succ fuel ih =>
    intro i j h
    unfold dockerMainPoll at h
    by_cases hr : (inspect i).running = false
    · rw [if_pos hr] at h
      cases h
      exact hr
    · rw [if_neg hr] at h
      exact ih (i + 1) j h

/-- C6: the container backend's `stop_process` polls the exec's
running/exit-code status at the fixed interval until it completes or the
timeout window closes; when the exec completes within the window the exit code
is the one inspected and no kill is issued; on timeout it sends a kill signal
to the exec's in-container PID via a fresh exec exactly when the runtime
exposes one (and a container is attached), re-polls briefly, and reports the
final exit code or the sentinel `-9` when none can be determined.  Provided
the runtime reports an exit code for any exec it reports as not running, the
result is always a definite integer. -/
theorem C6_docker_stop_process (inspect : Nat → ExecInspect)
    (pollBudget killBudget : Nat) (hasContainer : Bool)
    (hg : ∀ t, (inspect t).running = false → (inspect t).exitCode ≠ none) :
    (∃ n : Int, (dockerStopProcess inspect pollBudget killBudget hasContainer).2
        = some n) ∧
    (∀ i, dockerMainPoll inspect 0 pollBudget = some i →
      (dockerStopProcess inspect pollBudget killBudget hasContainer).2
          = (inspect i).exitCode ∧
      (dockerStopProcess inspect pollBudget killBudget hasContainer).1 = [] ∧
      (inspect i).running = false) ∧
    (dockerMainPoll inspect 0 pollBudget = none →
      (dockerStopProcess inspect pollBudget killBudget hasContainer).1
          = (if (inspect pollBudget).pid ≠ 0 ∧ hasContainer = true then
              [DockerAction.killExec (inspect pollBudget).pid] else []) ∧
      (dockerStopProcess inspect pollBudget killBudget hasContainer).2
          = some ((dockerKillPoll inspect (inspect pollBudget) (pollBudget + 1)
              killBudget).exitCode.getD (-9))) := by
  refine ⟨?_, ?_, ?_⟩
  · cases hm : dockerMainPoll inspect 0 pollBudget with
    | none =>
      exact ⟨(dockerKillPoll inspect (inspect pollBudget) (pollBudget + 1)
          killBudget).exitCode.getD (-9),
        by simp [dockerStopProcess, hm]⟩
    | some i =>
      have hrun := dockerMainPoll_running inspect pollBudget 0 i hm
      have hne := hg i hrun
      cases hcode : (inspect i).exitCode with
      | none => exact absurd hcode hne
      | some n => exact ⟨n, by simp [dockerStopProcess, hm, hcode]⟩
  · intro i hm
    refine ⟨by simp [dockerStopProcess, hm], by simp [dockerStopProcess, hm],
      dockerMainPoll_running inspect pollBudget 0 i hm⟩
  · intro hm
    exact ⟨by simp [dockerStopProcess, hm], by simp [dockerStopProcess, hm]⟩

/-- Witness for C6: an exec observed still running on the first poll and
finished with code 0 on the second. -/
theorem C6_docker_stop_process_witness :
    (dockerStopProcess (fun t => if t = 0 then ⟨true, none, 7⟩ else ⟨false, some 0, 7⟩)
      3 25 true).2 = some 0 := by
  have h := (C6_docker_stop_process
      (fun t => if t = 0 then ⟨true, none, 7⟩ else ⟨false, some 0, 7⟩) 3 25 true
      (fun t ht => by
        by_cases h0 : t = 0 <;> simp [h0] at ht ⊢)).2.1 1 rfl
  rw [h.1]
  rfl

/-! ## Console expect primitives (console.py, `Console._expect` 103-117,
`LineReader.read_cond` 272-288, `read_until_one_of` / `read_until_all`
297-301)

`read_cond` keeps one boolean per pattern, updates every matching entry for
each line retrieved before the timeout, and returns true as soon as the
combinator (`any` / `all`) over the booleans holds; it returns false when the
line supply is exhausted (the timeout).  The pattern check (`_check_msg`,
substring or regex) is passed in as a function; the concrete substring check
is also embedded below.  The per-pattern booleans are carried next to their
patterns as a list of pairs (the Python code keeps them in a parallel
`checks` list indexed like `exprs`). -/

/-- Whether `needle` is a prefix of `hay` (on character lists, so that it
evaluates by reduction). -/
def isPrefixChars : List Char → List Char → Bool
  | [], _ => true
  | _ :: _, [] => false
  | a :: as, b :: bs => a = b && isPrefixChars as bs

/-- Whether `needle` occurs contiguously in `hay` (Python's `needle in hay`). -/
def containsChars : List Char → List Char → Bool
  | [], needle => needle.isEmpty
  | c :: hs, needle => isPrefixChars needle (c :: hs) || containsChars hs needle

/-- Python's substring test `expr in msg`. -/
def strContains (msg expr : String) : Bool := containsChars msg.data expr.data

/-- `LineReader._check_msg` (console.py 318-320): regex search when `regex`
is set (the regex engine `reSearch` is an abstract input of the model),
substring containment otherwise. -/
def checkMsg (reSearch : String → String → Bool) (msg expr : String) (regex : Bool) : Bool :=
  (regex && reSearch expr msg) || (!regex && strContains msg expr)

/-- Python's `any` combinator over the checks list. -/
def endAny (checks : List Bool) : Bool := checks.any id

/-- Python's `all` combinator over the checks list. -/
def endAll (checks : List Bool) : Bool := checks.all id

/-- The loop body of `read_cond`: each pattern is paired with its check flag;
every line retrieved before the timeout updates the flags of the patterns it
matches, and the combinator is evaluated after each line.  Exhausting the
lines (the timeout) yields false. -/
def readCondGo (chk : String → String → Bool) (endFn : List Bool → Bool) :
    List (String × Bool) → List String → Bool
  | _, [] => false
  | state, line :: rest =>
    let state' := state.map (fun p => (p.1, p.2 || chk line p.1))
    if endFn (state'.map Prod.snd) then true
    else readCondGo chk endFn state' rest

/-- `LineReader.read_cond` over the lines retrieved before the timeout. -/
def readCond (chk : String → String → Bool) (exprs : List String)
    (endFn : List Bool → Bool) (lines : List String) : Bool :=
  readCondGo chk endFn (exprs.map (fun e => (e, false))) lines

/-- `LineReader.read_until_one_of`. -/
def readUntilOneOf (chk : String → String → Bool) (exprs lines : List String) : Bool :=
  readCond chk exprs endAny lines

/-- `LineReader.read_until_all`. -/
def readUntilAll (chk : String → String → Bool) (exprs lines : List String) : Bool :=
  readCond chk exprs endAll lines

/-- The failure raised by `Console._expect` (console.py 111), carrying the
combinator name, the command and the pattern set. -/
inductive ConsoleError where
  | expectationFailed (endName : String) (cmd : String) (msgs : List String)
deriving Repr, DecidableEq

/-- `Console._expect`: run the command, read until the combinator holds,
raise naming the combinator, command and patterns otherwise. -/
def consoleExpect (chk : String → String → Bool) (endName : String)
    (endFn : List Bool → Bool) (cmd : String) (msgs lines : List String) :
    Except ConsoleError Bool :=
  if readCond chk msgs endFn lines then .ok true
  else .error (.expectationFailed endName cmd msgs)

theorem any_map_snd (g : (String × Bool) → (String × Bool)) :
    ∀ state : List (String × Bool),
      ((state.map g).map Prod.snd).any id = state.any (fun p => (g p).2) := by
  intro state
  induction state with
  | nil => rfl
  | cons p ps ih => simp only [List.map_cons, List.any_cons, id_eq, ih]

theorem all_map_snd (g : (String × Bool) → (String × Bool)) :
    ∀ state : List (String × Bool),
      ((state.map g).map Prod.snd).all id = state.all (fun p => (g p).2) := by
  intro state
  induction state with
  | nil => rfl
  | cons p ps ih => simp only [List.map_cons, List.all_cons, id_eq, ih]

theorem readCondGo_any_iff (chk : String → String → Bool) (lines : List String) :
    ∀ state : List (String × Bool),
      (readCondGo chk endAny state lines = true ↔
        lines ≠ [] ∧
          ((∃ p ∈ state, p.2 = true) ∨ ∃ l ∈ lines, ∃ p ∈ state, chk l p.1 = true)) := by
  induction lines with
  | nil => intro state; simp [readCondGo]
  | cons line rest ih =>
    intro state
    show (if endAny ((state.map _).map Prod.snd) = true then true
      else readCondGo chk endAny (state.map _) rest) = true ↔ _
    have hany : endAny (((state.map (fun p => (p.1, p.2 || chk line p.1))).map Prod.snd))
        = state.any (fun p => p.2 || chk line p.1) :=
      any_map_snd (fun p => (p.1, p.2 || chk line p.1)) state
    by_cases hcase : state.any (fun p => p.2 || chk line p.1) = true
    · rw [hany, if_pos hcase]
      simp only [List.any_eq_true, Bool.or_eq_true] at hcase
      obtain ⟨p, hp, hor⟩ := hcase
      simp only [true_iff]
      refine ⟨by simp, ?_⟩
      rcases hor with h2 | h2
      · exact Or.inl ⟨p, hp, h2⟩
      · exact Or.inr ⟨line, by simp, p, hp, h2⟩
    · rw [hany, if_neg hcase]
      rw [ih (state.map (fun p => (p.1, p.2 || chk line p.1)))]
      simp only [List.any_eq_true, Bool.or_eq_true, not_exists, not_or] at hcase
      push_neg at hcase
      constructor
      · rintro ⟨hne, hor⟩
        refine ⟨by simp, ?_⟩
        rcases hor with ⟨p', hp', h2⟩ | ⟨l, hl, p', hp', h2⟩
        · obtain ⟨p, hp, hpeq⟩ := List.mem_map.mp hp'
          rw [← hpeq] at h2
          simp only [Bool.or_eq_true] at h2
          rcases h2 with h2 | h2
          · exact Or.inl ⟨p, hp, h2⟩
          · exact Or.inr ⟨line, by simp, p, hp, h2⟩
        · obtain ⟨p, hp, hpeq⟩ := List.mem_map.mp hp'
          rw [← hpeq] at h2
          exact Or.inr ⟨l, by simp [hl], p, hp, h2⟩
      · rintro ⟨_, hor⟩
        rcases hor with ⟨p, hp, h2⟩ | ⟨l, hl, p, hp, h2⟩
        · exact absurd h2 (by simpa using (hcase p hp).1)
        · rcases List.mem_cons.mp hl with hl0 | hl0
          · subst hl0
            exact absurd h2 (by simpa using (hcase p hp).2)
          · exact ⟨List.ne_nil_of_mem hl0,
              Or.inr ⟨l, hl0, (p.1, p.2 || chk line p.1),
                List.mem_map_of_mem _ hp, h2⟩⟩

theorem readCondGo_all_iff (chk : String → String → Bool) (lines : List String) :
    ∀ state : List (String × Bool),
      (readCondGo chk endAll state lines = true ↔
        lines ≠ [] ∧
          ∀ p ∈ state, p.2 = true ∨ ∃ l ∈ lines, chk l p.1 = true) := by
  induction lines with
  | nil => intro state; simp [readCondGo]
  | cons line rest ih =>
    intro state
    show (if endAll ((state.map _).map Prod.snd) = true then true
      else readCondGo chk endAll (state.map _) rest) = true ↔ _
    have hall : endAll (((state.map (fun p => (p.1, p.2 || chk line p.1))).map Prod.snd))
        = state.all (fun p => p.2 || chk line p.1) :=
      all_map_snd (fun p => (p.1, p.2 || chk line p.1)) state
    by_cases hcase : state.all (fun p => p.2 || chk line p.1) = true
    · rw [hall, if_pos hcase]
      simp only [List.all_eq_true, Bool.or_eq_true] at hcase
      simp only [true_iff]
      refine ⟨by simp, fun p hp => ?_⟩
      rcases hcase p hp with h2 | h2
      · exact Or.inl h2
      · exact Or.inr ⟨line, by simp, h2⟩
    · rw [hall, if_neg hcase]
      rw [ih (state.map (fun p => (p.1, p.2 || chk line p.1)))]
      have hwit : ∃ p₀ ∈ state, p₀.2 = false ∧ chk line p₀.1 = false := by
        by_contra hno
        apply hcase
        simp only [List.all_eq_true, Bool.or_eq_true]
        intro p hp
        by_cases h2 : p.2 = true
        · exact Or.inl h2
        · by_cases h3 : chk line p.1 = true
          · exact Or.inr h3
          · exact absurd ⟨p, hp, by simpa using h2, by simpa using h3⟩ hno
      constructor
      · rintro ⟨hne, hforall⟩
        refine ⟨by simp, fun p hp => ?_⟩
        have := hforall (p.1, p.2 || chk line p.1) (List.mem_map_of_mem _ hp)
        simp only [Bool.or_eq_true] at this
        rcases this with (h2 | h2) | ⟨l, hl, h2⟩
        · exact Or.inl h2
        · exact Or.inr ⟨line, by simp, h2⟩
        · exact Or.inr ⟨l, by simp [hl], h2⟩
      · rintro ⟨_, hforall⟩
        obtain ⟨p₀, hp₀, hsnd₀, hchk₀⟩ := hwit
        have hrest : ∃ l ∈ rest, chk l p₀.1 = true := by
          rcases hforall p₀ hp₀ with h2 | ⟨l, hl, h2⟩
          · exact absurd h2 (by simp [hsnd₀])
          · rcases List.mem_cons.mp hl with hl0 | hl0
            · subst hl0
              exact absurd h2 (by simp [hchk₀])
            · exact ⟨l, hl0, h2⟩
        obtain ⟨l₀, hl₀, _⟩ := hrest
        refine ⟨List.ne_nil_of_mem hl₀, ?_⟩
        intro p' hp'
        obtain ⟨p, hp, hpeq⟩ := List.mem_map.mp hp'
        subst hpeq
        simp only [Bool.or_eq_true]
        rcases hforall p hp with h2 | ⟨l, hl, h2⟩
        · exact Or.inl (Or.inl h2)
        · rcases List.mem_cons.mp hl with hl0 | hl0
          · subst hl0
            exact Or.inl (Or.inr h2)
          · exact Or.inr ⟨l, hl0, h2⟩

theorem readCond_any_iff (chk : String → String → Bool) (exprs lines : List String) :
    readUntilOneOf chk exprs lines = true ↔
      ∃ l ∈ lines, ∃ e ∈ exprs, chk l e = true := by
  unfold readUntilOneOf readCond
  rw [readCondGo_any_iff]
  constructor
  · rintro ⟨_, hor⟩
    rcases hor with ⟨p, hp, h2⟩ | ⟨l, hl, p, hp, h2⟩
    · obtain ⟨e, _, hpeq⟩ := List.mem_map.mp hp
      rw [← hpeq] at h2
      simp at h2
    · obtain ⟨e, he, hpeq⟩ := List.mem_map.mp hp
      rw [← hpeq] at h2
      exact ⟨l, hl, e, he, h2⟩
  · rintro ⟨l, hl, e, he, h2⟩
    exact ⟨List.ne_nil_of_mem hl,
      Or.inr ⟨l, hl, (e, false), List.mem_map_of_mem _ he, h2⟩⟩

theorem readCond_all_iff (chk : String → String → Bool) (exprs lines : List String) :
    readUntilAll chk exprs lines = true ↔
      lines ≠ [] ∧ ∀ e ∈ exprs, ∃ l ∈ lines, chk l e = true := by
  unfold readUntilAll readCond
  rw [readCondGo_all_iff]
  constructor
  · rintro ⟨hne, hforall⟩
    refine ⟨hne, fun e he => ?_⟩
    rcases hforall (e, false) (List.mem_map_of_mem _ he) with h2 | h2
    · exact absurd h2 (by simp)
    · exact h2
  · rintro ⟨hne, hforall⟩
    refine ⟨hne, fun p hp => ?_⟩
    obtain ⟨e, he, hpeq⟩ := List.mem_map.mp hp
    subst hpeq
    exact Or.inr (hforall e he)

/-- C7 counterexample: with an empty pattern list and no lines read before
the timeout, every pattern has (vacuously) been matched by a line seen, yet
`expect_all` raises the expectation failure: Python's `all(checks)` is only
evaluated after at least one line arrives, so the combinator is never
consulted and the timeout wins, contradicting the claimed exact
characterisation for every list of patterns. -/
theorem C7_expect_counterexample :
    consoleExpect (fun m e => checkMsg (fun _ _ => false) m e false) "all" endAll
        "cmd" [] []
      = .error (.expectationFailed "all" "cmd" []) ∧
    (∀ e ∈ ([] : List String),
      ∃ l ∈ ([] : List String),
        checkMsg (fun _ _ => false) l e false = true) :=
  ⟨rfl, fun e he => absurd he (List.not_mem_nil e)⟩

/-- C7 (amended): for every pattern-check function, command, pattern list and
sequence of lines read before the timeout: `expect_any` / `read_until_one_of`
succeeds exactly when some pattern is matched by some line seen; for a
nonempty pattern list, `expect_all` / `read_until_all` succeeds exactly when
every pattern has been matched by at least one line seen (the matching lines
may differ per pattern and appear in any order); for an empty pattern list,
`expect_all` succeeds exactly when at least one line was seen; and whenever
the combinator is not satisfied within the timeout, `expect_any` /
`expect_all` raise the expectation failure naming the combinator, the command
and the pattern set. -/
theorem C7_expect_amended (chk : String → String → Bool) (cmd : String)
    (msgs lines : List String) :
    (consoleExpect chk "any" endAny cmd msgs lines = .ok true ↔
      ∃ l ∈ lines, ∃ e ∈ msgs, chk l e = true) ∧
    (readUntilOneOf chk msgs lines = true ↔
      ∃ l ∈ lines, ∃ e ∈ msgs, chk l e = true) ∧
    (msgs ≠ [] →
      ((consoleExpect chk "all" endAll cmd msgs lines = .ok true ↔
        ∀ e ∈ msgs, ∃ l ∈ lines, chk l e = true) ∧
       (readUntilAll chk msgs lines = true ↔
        ∀ e ∈ msgs, ∃ l ∈ lines, chk l e = true))) ∧
    (msgs = [] →
      (consoleExpect chk "all" endAll cmd msgs lines = .ok true ↔ lines ≠ [])) ∧
    (consoleExpect chk "any" endAny cmd msgs lines ≠ .ok true →
      consoleExpect chk "any" endAny cmd msgs lines
        = .error (.expectationFailed "any" cmd msgs)) ∧
    (consoleExpect chk "all" endAll cmd msgs lines ≠ .ok true →
      consoleExpect chk "all" endAll cmd msgs lines
        = .error (.expectationFailed "all" cmd msgs)) := by
  have hany := readCond_any_iff chk msgs lines
  have hall := readCond_all_iff chk msgs lines
  refine ⟨?_, hany, ?_, ?_, ?_, ?_⟩
  · unfold consoleExpect
    by_cases hrc : readCond chk msgs endAny lines = true
    · rw [if_pos hrc]
      simp only [true_iff]
      exact (hany.mp hrc)
    · rw [if_neg hrc]
      constructor
      · intro h
        exact absurd h (by simp)
      · intro h
        exact absurd (hany.mpr h) hrc
  · intro hne
    refine ⟨?_, ?_⟩
    · unfold consoleExpect
      by_cases hrc : readCond chk msgs endAll lines = true
      · rw [if_pos hrc]
        simp only [true_iff]
        exact (hall.mp hrc).2
      · rw [if_neg hrc]
        constructor
        · intro h
          exact absurd h (by simp)
        · intro h
          obtain ⟨e₀, he₀⟩ := List.exists_mem_of_ne_nil msgs hne
          obtain ⟨l₀, hl₀, _⟩ := h e₀ he₀
          exact absurd (hall.mpr ⟨List.ne_nil_of_mem hl₀, h⟩) hrc
    · constructor
      · intro h
        exact (hall.mp h).2
      · intro h
        obtain ⟨e₀, he₀⟩ := List.exists_mem_of_ne_nil msgs hne
        obtain ⟨l₀, hl₀, _⟩ := h e₀ he₀
        exact hall.mpr ⟨List.ne_nil_of_mem hl₀, h⟩
  · intro hmt
    subst hmt
    unfold consoleExpect
    by_cases hrc : readCond chk [] endAll lines = true
    · rw [if_pos hrc]
      simp only [true_iff]
      exact (hall.mp hrc).1
    · rw [if_neg hrc]
      constructor
      · intro h
        exact absurd h (by simp)
      · intro h
        exact absurd (hall.mpr ⟨h, by simp⟩) hrc
  · intro h
    unfold consoleExpect at h ⊢
    by_cases hrc : readCond chk msgs endAny lines = true
    · rw [if_pos hrc] at h
      exact absurd rfl h
    · rw [if_neg hrc]
  · intro h
    unfold consoleExpect at h ⊢
    by_cases hrc : readCond chk msgs endAll lines = true
    · rw [if_pos hrc] at h
      exact absurd rfl h
    · rw [if_neg hrc]

/-- Witness for the amended C7 theorem with the substring check: both "A" and
"B" appear across two lines in either order, so `expect_all` succeeds. -/
theorem C7_expect_amended_witness :
    consoleExpect (fun m e => checkMsg (fun _ _ => false) m e false) "all" endAll
        "run" ["A", "B"] ["xxBxx", "yyAyy"]
      = .ok true := by
  have h := ((C7_expect_amended (fun m e => checkMsg (fun _ _ => false) m e false)
      "run" ["A", "B"] ["xxBxx", "yyAyy"]).2.2.1 (by decide)).1
  apply h.mpr
  intro e he
  rcases List.mem_cons.mp he with h1 | h1
  · subst h1
    exact ⟨"yyAyy", by decide, by decide⟩
  · rcases List.mem_cons.mp h1 with h2 | h2
    · subst h2
      exact ⟨"xxBxx", by decide, by decide⟩
    · exact absurd h2 (List.not_mem_nil e)

/-! ## Bwrap command construction (bwrap.py, `_build_bwrap_cmd` 206-263 and
`execute` 125-132)

`execute` calls `self._build_bwrap_cmd(cwd, self._extra_mount_list)`, and
`_build_bwrap_cmd` then merges `self._extra_mount_list` into its
`extra_mount_list` argument again (`all_extra = list(extra_mount_list or []);
if self._extra_mount_list: all_extra.extend(self._extra_mount_list)`).  Each
command chunk below is one option of the eventual
`" ".join(cmd).split()` line. -/

/-- One configured extra mount `(host, sandbox[, readonly])`; the optional
third tuple element is `some b` when present and a bool. -/
structure ExtraMount where
  hostSrc : String
  sandboxDst : String
  roFlag : Option Bool
deriving Repr, DecidableEq

/-- The constructor configuration of `BwrapEnvironment` used by
`_build_bwrap_cmd`. -/
structure BwrapConfig where
  sysroot : String
  workspace : String
  persistent : String
  artifact_output_path : Option String
  env_vars : List (String × String)
  bazel_solibs : Option (String × String)
  solibs_path : Option String
  extra_mount_list : List ExtraMount

/-- Validity of an extra mount entry (bwrap.py 257): the host source is an
existing directory and the sandbox destination is an absolute path. -/
def mountValid (isdir : String → Bool) (m : ExtraMount) : Bool :=
  isdir m.hostSrc && isAbsPath m.sandboxDst

/-- The read-only flag holds when the third tuple element is present, a bool,
and true (bwrap.py 255). -/
def ExtraMount.readOnly (m : ExtraMount) : Bool := m.roFlag == some true

/-- The bind option a valid entry contributes (bwrap.py 258-259). -/
def bindOption (m : ExtraMount) : String :=
  (if m.readOnly then "--ro-bind " else "--bind ") ++ m.hostSrc ++ " " ++ m.sandboxDst

/-- The bind options of the valid entries of a mount list, in order; invalid
entries are skipped (with a warning in the source). -/
def extraMountCmds (isdir : String → Bool) (l : List ExtraMount) : List String :=
  l.filterMap (fun m => if mountValid isdir m then some (bindOption m) else none)

/-- Every chunk of `_build_bwrap_cmd`'s `cmd` list before the extra-mount
merge: base binds, optional artifact bind, chdir/proc/dev and fixed setenvs,
configured env vars, the conditional Bazel solibs bind, and the conditional
host-directory binds. -/
def bwrapFixedCmds (cfg : BwrapConfig) (isdir : String → Bool) (cwd : String) :
    List String :=
  ["/usr/bin/bwrap", "--die-with-parent",
   "--bind " ++ cfg.sysroot ++ " /",
   "--bind " ++ cfg.workspace ++ " /tmp",
   "--bind " ++ cfg.persistent ++ " /persistent",
   "--ro-bind /bin /bin",
   "--ro-bind /lib /lib",
   "--ro-bind /lib64 /lib64",
   "--ro-bind /usr/lib /usr/lib",
   "--ro-bind /usr/bin /usr/bin"] ++
  (match cfg.artifact_output_path with
   | some p => ["--bind " ++ p ++ " /tmp/artifacts"]
   | none => []) ++
  ["--chdir " ++ cwd,
   "--proc /proc",
   "--dev-bind /dev /dev",
   "--setenv TEST_PREMATURE_EXIT_FILE /tmp/gtest.exited_prematurely",
   "--setenv SCTF SCTF",
   "--setenv AMSR_DISABLE_INTEGRITY_CHECK 1"] ++
  cfg.env_vars.map (fun kv => "--setenv " ++ kv.1 ++ " " ++ kv.2) ++
  (match cfg.solibs_path, cfg.bazel_solibs with
   | some sp, some sd =>
     if sp ≠ "" ∧ sd.1 ≠ "" then
       ["--ro-bind " ++ sd.1 ++ " " ++ sd.2, "--setenv LD_LIBRARY_PATH " ++ sp]
     else []
   | _, _ => []) ++
  ((if isdir "/usr/lib64" then ["--ro-bind /usr/lib64 /usr/lib64"] else []) ++
   (if isdir "/usr/libexec" then ["--ro-bind /usr/libexec /usr/libexec"] else []))

/-- `BwrapEnvironment._build_bwrap_cmd`: the fixed chunks followed by the bind
options of `all_extra = list(extra_mount_list or []) + self._extra_mount_list`
(the second summand added whenever the configured list is nonempty). -/
def buildBwrapCmd (cfg : BwrapConfig) (isdir : String → Bool) (cwd : String)
    (extraArg : List ExtraMount) : List String :=
  bwrapFixedCmds cfg isdir cwd ++
    extraMountCmds isdir (extraArg ++ cfg.extra_mount_list)

/-- The command line `execute` constructs: it passes the configured
`self._extra_mount_list` as the argument (bwrap.py 128). -/
def bwrapExecuteCmd (cfg : BwrapConfig) (isdir : String → Bool) (cwd : String) :
    List String :=
  buildBwrapCmd cfg isdir cwd cfg.extra_mount_list

/-- C9: when the configured `extra_mount_list` is non-empty, every valid
extra mount entry contributes its bind option to the constructed bwrap
command line twice: `execute` passes the configured list into
`_build_bwrap_cmd` as an argument, and `_build_bwrap_cmd` merges the same
configured list into it again, so the extras section is the valid bind
options listed twice over, and each valid configured entry's bind option
occurs at least twice in the final command. -/
theorem C9_extra_mounts_doubled (cfg : BwrapConfig) (isdir : String → Bool)
    (cwd : String) :
    bwrapExecuteCmd cfg isdir cwd
      = bwrapFixedCmds cfg isdir cwd ++
          (extraMountCmds isdir cfg.extra_mount_list ++
            extraMountCmds isdir cfg.extra_mount_list) ∧
    (∀ s : String,
      (extraMountCmds isdir (cfg.extra_mount_list ++ cfg.extra_mount_list)).count s
        = 2 * (extraMountCmds isdir cfg.extra_mount_list).count s) ∧
    (∀ m ∈ cfg.extra_mount_list, mountValid isdir m = true →
      2 ≤ (bwrapExecuteCmd cfg isdir cwd).count (bindOption m)) := by
  have hsplit : extraMountCmds isdir (cfg.extra_mount_list ++ cfg.extra_mount_list)
      = extraMountCmds isdir cfg.extra_mount_list ++
        extraMountCmds isdir cfg.extra_mount_list := by
    unfold extraMountCmds
    exact List.filterMap_append _ _ _
  refine ⟨?_, ?_, ?_⟩
  · unfold bwrapExecuteCmd buildBwrapCmd
    rw [hsplit]
  · intro s
    rw [hsplit, List.count_append]
    omega
  · intro m hm hvalid
    have hmem : bindOption m ∈ extraMountCmds isdir cfg.extra_mount_list := by
      unfold extraMountCmds
      exact List.mem_filterMap.mpr ⟨m, hm, by rw [if_pos hvalid]⟩
    have hpos : 1 ≤ (extraMountCmds isdir cfg.extra_mount_list).count (bindOption m) :=
      List.count_pos_iff.mpr hmem
    unfold bwrapExecuteCmd buildBwrapCmd
    rw [hsplit, List.count_append, List.count_append]
    omega

/-- Witness for C9: a single valid configured mount of `/data` contributes
its bind option at least twice. -/
theorem C9_extra_mounts_doubled_witness :
    2 ≤ (bwrapExecuteCmd
        ⟨"/s", "/w", "/p", none, [], none, none, [⟨"/data", "/data", none⟩]⟩
        (fun _ => true) "/").count (bindOption ⟨"/data", "/data", none⟩) :=
  (C9_extra_mounts_doubled
      ⟨"/s", "/w", "/p", none, [], none, none, [⟨"/data", "/data", none⟩]⟩
      (fun _ => true) "/").2.2 ⟨"/data", "/data", none⟩ (by simp)
    (by decide)

/-! ## Class-level shared line queues keyed by log-file path (console.py,
`LineReader.__init__` 210-233, `clear_history` / `get_line` / `_add_log`
290-316)

`LineReader.__init__` first assigns a fresh private queue, then, when a
`logfile` is given, registers a class-level lock and a class-level
`LineReaderQueue(max_size=400)` under that path on first use and rebinds
`self._log_queue` to the registered queue — so all readers constructed with
the same log-file path share one queue. -/

/-- Which queue a reader's `_log_queue` refers to: the class-level queue
registered under a log-file path, or the reader's own private queue. -/
inductive QueueRef where
  | shared (path : String)
  | priv (id : Nat)
deriving Repr, DecidableEq

/-- The class-level registry (`LineReader.log_queues`) plus the private
queues of readers constructed without a log file. -/
structure ReaderRegistry where
  log_queues : List (String × LineReaderQueue)
  next_private : Nat
  private_queues : List (Nat × LineReaderQueue)

/-- Association-list lookup for the class-level registry. -/
def lookupQ (l : List (String × LineReaderQueue)) (k : String) :
    Option LineReaderQueue :=
  (l.find? (fun p => p.1 == k)).map Prod.snd

/-- Association-list update for the class-level registry. -/
def updateQ (l : List (String × LineReaderQueue)) (k : String)
    (f : LineReaderQueue → LineReaderQueue) : List (String × LineReaderQueue) :=
  l.map (fun p => if p.1 == k then (p.1, f p.2) else p)

/-- `LineReader.__init__`: a reader built without a log file owns a fresh
private `LineReaderQueue(max_size=400)`; a reader built with a log file is
bound to the class-level queue registered under that path, creating the
registration on first use. -/
def lineReaderInit (st : ReaderRegistry) (logfile : Option String) :
    QueueRef × ReaderRegistry :=
  match logfile with
  | none =>
    (.priv st.next_private,
     { st with
       next_private := st.next_private + 1,
       private_queues :=
         (st.next_private, LineReaderQueue.mk0 400) :: st.private_queues })
  | some lf =>
    match lookupQ st.log_queues lf with
    | some _ => (.shared lf, st)
    | none =>
      (.shared lf,
       { st with log_queues := (lf, LineReaderQueue.mk0 400) :: st.log_queues })

/-- `LineReader._add_log` through a reader's queue reference
(`self._log_queue.put(log)`). -/
def addLogRef (st : ReaderRegistry) (r : QueueRef) (line : String) : ReaderRegistry :=
  match r with
  | .shared lf => { st with log_queues := updateQ st.log_queues lf (·.put line) }
  | .priv i =>
    { st with
      private_queues :=
        st.private_queues.map (fun p => if p.1 == i then (p.1, p.2.put line) else p) }

/-- Non-blocking `LineReaderQueue.get` (console.py 347-365 with
`block=False`): `None` models the raised `Empty`. -/
def LineReaderQueue.getNB (q : LineReaderQueue) : Option (String × LineReaderQueue) :=
  match q.queue with
  | [] => none
  | x :: rest => some (x, { q with queue := rest })

/-- `LineReader.get_line(block=False)` through a reader's queue reference. -/
def getLineRef (st : ReaderRegistry) (r : QueueRef) : Option String × ReaderRegistry :=
  let q? : Option LineReaderQueue := match r with
    | .shared lf => lookupQ st.log_queues lf
    | .priv i => (st.private_queues.find? (fun p => p.1 == i)).map Prod.snd
  match q? with
  | none => (none, st)
  | some q =>
    match q.getNB with
    | none => (none, st)
    | some (x, q') =>
      match r with
      | .shared lf => (some x, { st with log_queues := updateQ st.log_queues lf (fun _ => q') })
      | .priv i =>
        (some x,
         { st with
           private_queues :=
             st.private_queues.map (fun p => if p.1 == i then (p.1, q') else p) })

/-- `LineReader.clear_history` (`self._log_queue.clear()`) through a reader's
queue reference. -/
def clearHistoryRef (st : ReaderRegistry) (r : QueueRef) : ReaderRegistry :=
  match r with
  | .shared lf =>
    { st with log_queues := updateQ st.log_queues lf (fun q => { q with queue := [] }) }
  | .priv i =>
    { st with
      private_queues :=
        st.private_queues.map
          (fun p => if p.1 == i then (p.1, { p.2 with queue := [] }) else p) }

/-- C10: two `LineReader`s constructed with the same log-file path are bound
to one class-level queue keyed by that path instead of each owning a private
queue: both constructions return the same shared reference, the second
construction registers nothing new, a line logged through one reader's
reference is retrieved through the other's (they are the same queue), and
`clear_history` through either reference discards the queued history both
observe. -/
theorem C10_shared_log_queues (st : ReaderRegistry) (lf line : String)
    (hfresh : lookupQ st.log_queues lf = none) :
    (lineReaderInit st (some lf)).1 = .shared lf ∧
    (lineReaderInit ((lineReaderInit st (some lf)).2) (some lf)).1 = .shared lf ∧
    (lineReaderInit ((lineReaderInit st (some lf)).2) (some lf)).2
      = (lineReaderInit st (some lf)).2 ∧
    (getLineRef (addLogRef ((lineReaderInit st (some lf)).2) (.shared lf) line)
        (.shared lf)).1 = some line ∧
    (getLineRef (clearHistoryRef
        (addLogRef ((lineReaderInit st (some lf)).2) (.shared lf) line)
        (.shared lf)) (.shared lf)).1 = none := by
  have hinit : lineReaderInit st (some lf)
      = (.shared lf,
         { st with log_queues := (lf, LineReaderQueue.mk0 400) :: st.log_queues }) := by
    simp [lineReaderInit, hfresh]
  have hlookup1 :
      lookupQ ((lf, LineReaderQueue.mk0 400) :: st.log_queues) lf
        = some (LineReaderQueue.mk0 400) := by
    simp [lookupQ]
  refine ⟨by rw [hinit], ?_, ?_, ?_, ?_⟩
  · rw [hinit]
    simp [lineReaderInit, hlookup1]
  · rw [hinit]
    simp [lineReaderInit, hlookup1]
  · rw [hinit]
    simp [addLogRef, updateQ, getLineRef, lookupQ, LineReaderQueue.mk0,
      LineReaderQueue.put, LineReaderQueue.getNB]
  · rw [hinit]
    simp [addLogRef, clearHistoryRef, updateQ, getLineRef, lookupQ,
      LineReaderQueue.mk0, LineReaderQueue.put, LineReaderQueue.getNB]

/-- Witness for C10 on the empty registry: the shared queue under "/log" is
created once, shared, and a logged line round-trips through it. -/
theorem C10_shared_log_queues_witness :
    (lineReaderInit ⟨[], 0, []⟩ (some "/log")).1 = .shared "/log" ∧
    (getLineRef (addLogRef ((lineReaderInit ⟨[], 0, []⟩ (some "/log")).2)
        (.shared "/log") "hello") (.shared "/log")).1 = some "hello" := by
  have h := C10_shared_log_queues ⟨[], 0, []⟩ "/log" "hello" (by simp [lookupQ])
  exact ⟨h.1, h.2.2.2.1⟩

/-! ## File transfer (bwrap.py `copy_to`/`copy_from` 186-200, noop.py
139-151, docker_env.py 322-344)

The filesystem is modelled as a flat association list from full paths
(segment lists) to file byte contents; directories exist implicitly as proper
prefixes of file paths.  `shutil.copy2` is an overwriting single-file copy;
`shutil.copytree(..., dirs_exist_ok=True)` copies every file under the source
prefix to the corresponding path under the destination prefix, overwriting
files and merging directories — which is exactly per-file overwrite in the
flat model.  The Docker backend moves a tar archive whose top-level entry is
named after the *in-environment* path's basename: `copy_to` lands the data at
`dirname(env) ++ [basename(env)]`, and `copy_from` extracts the entry — still
named `basename(env)` — into `dirname(host)`. -/

/-- A path as a list of segments. -/
abbrev FsPath := List String

/-- A flat filesystem: file path → byte content. -/
abbrev FileSys := List (FsPath × List Nat)

/-- Content of the file at `p`, if any. -/
def FileSys.lookup (fs : FileSys) (p : FsPath) : Option (List Nat) :=
  (fs.find? (fun e => e.1 == p)).map Prod.snd

/-- Overwriting write of a file. -/
def FileSys.write (fs : FileSys) (p : FsPath) (c : List Nat) : FileSys :=
  fs.filter (fun e => !(e.1 == p)) ++ [(p, c)]

/-- `os.path.isdir`: something exists strictly under `p`. -/
def FileSys.isDir (fs : FileSys) (p : FsPath) : Bool :=
  fs.any (fun e => p.isPrefixOf e.1 && !(p == e.1))

/-- The files strictly under `p`, keyed by their path relative to `p`. -/
def FileSys.filesUnder (fs : FileSys) (p : FsPath) : List (FsPath × List Nat) :=
  fs.filterMap (fun e =>
    if p.isPrefixOf e.1 && !(p == e.1) then some (e.1.drop p.length, e.2) else none)

/-- Write a list of relative entries under `dst`. -/
def copyTreeFrom (entries : List (FsPath × List Nat)) (dst : FsPath) (fs : FileSys) :
    FileSys :=
  entries.foldl (fun acc e => acc.write (dst ++ e.1) e.2) fs

/-- Generic copy of the object at `src` in `srcFs` to `dst` in `dstFs`
(`copy_to`/`copy_from` bodies): a directory tree is copied per file with
merge semantics (`copytree(..., dirs_exist_ok=True)`), a single file is
copied by overwrite (`copy2`); a missing source raises. -/
def copyObj (srcFs : FileSys) (src : FsPath) (dstFs : FileSys) (dst : FsPath) :
    Except String FileSys :=
  if srcFs.isDir src then .ok (copyTreeFrom (srcFs.filesUnder src) dst dstFs)
  else
    match srcFs.lookup src with
    | some c => .ok (dstFs.write dst c)
    | none => .error "TransferError: missing source"

/-- `BwrapEnvironment.copy_to`: the environment path is mapped to
`os.path.join(sysroot, env_path.lstrip("/"))`, i.e. the sysroot prefix. -/
def bwrapCopyTo (sysroot : FsPath) (fs : FileSys) (hostPath envPath : FsPath) :
    Except String FileSys :=
  copyObj fs hostPath fs (sysroot ++ envPath)

/-- `BwrapEnvironment.copy_from`. -/
def bwrapCopyFrom (sysroot : FsPath) (fs : FileSys) (envPath hostPath : FsPath) :
    Except String FileSys :=
  copyObj fs (sysroot ++ envPath) fs hostPath

/-- `NoopEnvironment.copy_to` (host-to-host copy, no mapping). -/
def noopCopyTo (fs : FileSys) (hostPath envPath : FsPath) : Except String FileSys :=
  copyObj fs hostPath fs envPath

/-- `NoopEnvironment.copy_from`. -/
def noopCopyFrom (fs : FileSys) (envPath hostPath : FsPath) : Except String FileSys :=
  copyObj fs envPath fs hostPath

/-- `DockerEnvironment.copy_to`: tar the host object under the arcname
`basename(env_path)` and extract into `dirname(env_path)` in the container. -/
def dockerCopyTo (host container : FileSys) (hostPath envPath : FsPath) :
    Except String FileSys :=
  match envPath.getLast? with
  | some b => copyObj host hostPath container (envPath.dropLast ++ [b])
  | none => .error "TransferError: empty path"

/-- `DockerEnvironment.copy_from`: fetch the archive of `env_path` (top-level
entry named `basename(env_path)`) and extract it into `dirname(host_path)` on
the host — the data lands at `dirname(host_path) ++ [basename(env_path)]`. -/
def dockerCopyFrom (container host : FileSys) (envPath hostPath : FsPath) :
    Except String FileSys :=
  match envPath.getLast? with
  | some b => copyObj container envPath host (hostPath.dropLast ++ [b])
  | none => .error "TransferError: empty path"

theorem find?_filter_ne (fs : FileSys) (p q : FsPath) (hne : q ≠ p) :
    (fs.filter (fun e => !(e.1 == p))).find? (fun e => e.1 == q)
      = fs.find? (fun e => e.1 == q) := by
  induction fs with
  | nil => rfl
  | cons e fs ih =>
    by_cases hep : e.1 = p
    · have h1 : ¬((!(e.1 == p)) = true) := by simp [hep]
      have h2 : ¬((e.1 == q) = true) := by
        simp [hep]
        exact fun h => hne h.symm
      rw [@List.filter_cons_of_neg _ (fun e => !(e.1 == p)) e fs h1,
        @List.find?_cons_of_neg _ (fun e => e.1 == q) e fs h2]
      exact ih
    · have h1 : (!(e.1 == p)) = true := by simp [hep]
      rw [@List.filter_cons_of_pos _ (fun e => !(e.1 == p)) e fs h1]
      by_cases heq : e.1 = q
      · have h2 : (e.1 == q) = true := by simp [heq]
        rw [@List.find?_cons_of_pos _ (fun e => e.1 == q) e
            (fs.filter (fun e => !(e.1 == p))) h2,
          @List.find?_cons_of_pos _ (fun e => e.1 == q) e fs h2]
      · have h2 : ¬((e.1 == q) = true) := by simp [heq]
        rw [@List.find?_cons_of_neg _ (fun e => e.1 == q) e
            (fs.filter (fun e => !(e.1 == p))) h2,
          @List.find?_cons_of_neg _ (fun e => e.1 == q) e fs h2]
        exact ih

theorem FileSys.lookup_write (fs : FileSys) (p : FsPath) (c : List Nat) (q : FsPath) :
    (fs.write p c).lookup q = if q = p then some c else fs.lookup q := by
  unfold FileSys.write FileSys.lookup
  rw [List.find?_append]
  by_cases hq : q = p
  · subst hq
    have hnone : (fs.filter (fun e => !(e.1 == q))).find? (fun e => e.1 == q) = none := by
      rw [List.find?_eq_none]
      intro e he
      have := (List.mem_filter.mp he).2
      simpa using this
    have hone : ([((q, c) : FsPath × List Nat)]).find? (fun e => e.1 == q)
        = some (q, c) :=
      List.find?_cons_of_pos _ (by simp)
    rw [hnone, hone, if_pos rfl]
    rfl
  · have hone : ([((p, c) : FsPath × List Nat)]).find? (fun e => e.1 == q) = none :=
      List.find?_cons_of_neg _ (by simp; exact fun h => hq h.symm)
    rw [find?_filter_ne fs p q hq, hone, if_neg hq]
    cases hfind : fs.find? (fun e => e.1 == q) <;> rfl

theorem lookup_copyTreeFrom (dst : FsPath) :
    ∀ (entries : List (FsPath × List Nat)) (fs : FileSys) (q : FsPath),
      (entries.map Prod.fst).Nodup →
      (copyTreeFrom entries dst fs).lookup q
        = match entries.find? (fun e => dst ++ e.1 == q) with
          | some e => some e.2
          | none => fs.lookup q := by
  intro entries
  induction entries with
  | nil => intro fs q _; rfl
  | cons e es ih =>
    intro fs q hnodup
    have hnd := (List.nodup_cons.mp hnodup)
    show (copyTreeFrom es dst (fs.write (dst ++ e.1) e.2)).lookup q = _
    rw [ih (fs.write (dst ++ e.1) e.2) q hnd.2]
    by_cases hq : q = dst ++ e.1
    · subst hq
      have hhead : ((dst ++ e.1) == (dst ++ e.1)) = true := by simp
      have hnone : es.find? (fun e' => dst ++ e'.1 == dst ++ e.1) = none := by
        rw [List.find?_eq_none]
        intro e' he'
        simp only [beq_iff_eq, List.append_cancel_left_eq]
        intro hcontra
        exact hnd.1 (hcontra ▸ List.mem_map_of_mem Prod.fst he')
      rw [hnone,
        @List.find?_cons_of_pos _ (fun e' => dst ++ e'.1 == dst ++ e.1) e es hhead]
      simp [FileSys.lookup_write]
    · have hhead : ¬(((dst ++ e.1) == q) = true) := by
        simp
        exact fun h => hq h.symm
      rw [@List.find?_cons_of_neg _ (fun e' => dst ++ e'.1 == q) e es hhead]
      cases hfind : es.find? (fun e' => dst ++ e'.1 == q) with
      | some e' => rfl
      | none =>
        rw [FileSys.lookup_write]
        rw [if_neg hq]

theorem FileSys.lookup_cons (e : FsPath × List Nat) (fs : FileSys) (q : FsPath) :
    FileSys.lookup (e :: fs) q
      = if e.1 = q then some e.2 else FileSys.lookup fs q := by
  unfold FileSys.lookup
  by_cases h : e.1 = q
  · rw [List.find?_cons_of_pos _ (by simp [h]), if_pos h]
    rfl
  · rw [List.find?_cons_of_neg _ (by simp [h]), if_neg h]

theorem FileSys.lookup_ne_none_of_key (fs : FileSys) (q : FsPath)
    (h : ∃ e ∈ fs, e.1 = q) : fs.lookup q ≠ none := by
  obtain ⟨e, he, hk⟩ := h
  unfold FileSys.lookup
  intro hnone
  have hfind := Option.map_eq_none'.mp hnone
  have := List.find?_eq_none.mp hfind e he
  simp [hk] at this

theorem FileSys.lookup_mem (fs : FileSys) (q : FsPath) (c : List Nat)
    (h : fs.lookup q = some c) : ∃ e ∈ fs, e.1 = q ∧ e.2 = c := by
  unfold FileSys.lookup at h
  cases hfind : fs.find? (fun e => e.1 == q) with
  | none => rw [hfind] at h; simp at h
  | some e =>
    rw [hfind] at h
    simp only [Option.map_some'] at h
    refine ⟨e, List.mem_of_find?_eq_some hfind, ?_, by simpa using h⟩
    have := List.find?_some hfind
    simpa using this

theorem FileSys.isDir_iff (fs : FileSys) (p : FsPath) :
    fs.isDir p = true ↔ ∃ e ∈ fs, p <+: e.1 ∧ p ≠ e.1 := by
  unfold FileSys.isDir
  rw [List.any_eq_true]
  constructor
  · rintro ⟨e, he, hcond⟩
    have h1 := (Bool.and_eq_true_iff.mp hcond).1
    have h2 := (Bool.and_eq_true_iff.mp hcond).2
    exact ⟨e, he, List.isPrefixOf_iff_prefix.mp h1, by simpa using h2⟩
  · rintro ⟨e, he, h1, h2⟩
    exact ⟨e, he, by
      rw [Bool.and_eq_true]
      exact ⟨List.isPrefixOf_iff_prefix.mpr h1, by simpa using h2⟩⟩

theorem mem_write (fs : FileSys) (p : FsPath) (c : List Nat)
    (e : FsPath × List Nat) (h : e ∈ fs.write p c) : e ∈ fs ∨ e = (p, c) := by
  unfold FileSys.write at h
  rcases List.mem_append.mp h with h1 | h1
  · exact Or.inl (List.mem_filter.mp h1).1
  · exact Or.inr (by simpa using h1)

theorem mem_copyTreeFrom (dst : FsPath) :
    ∀ (entries : List (FsPath × List Nat)) (fs : FileSys) (e : FsPath × List Nat),
      e ∈ copyTreeFrom entries dst fs →
      e ∈ fs ∨ ∃ r ∈ entries, e.1 = dst ++ r.1 := by
  intro entries
  induction entries with
  | nil => intro fs e h; exact Or.inl h
  | cons r rs ih =>
    intro fs e h
    rcases ih (fs.write (dst ++ r.1) r.2) e h with h1 | ⟨r', hr', hkey⟩
    · rcases mem_write _ _ _ _ h1 with h2 | h2
      · exact Or.inl h2
      · exact Or.inr ⟨r, by simp, by rw [h2]⟩
    · exact Or.inr ⟨r', by simp [hr'], hkey⟩

theorem write_keys_nodup (fs : FileSys) (p : FsPath) (c : List Nat)
    (h : (fs.map Prod.fst).Nodup) : ((fs.write p c).map Prod.fst).Nodup := by
  unfold FileSys.write
  rw [List.map_append, List.nodup_append]
  refine ⟨?_, by simp, ?_⟩
  · exact ((List.filter_sublist fs).map Prod.fst).nodup h
  · intro a ha hb
    simp only [List.map_cons, List.map_nil, List.mem_singleton] at hb
    subst hb
    obtain ⟨e, he, hkey⟩ := List.mem_map.mp ha
    have := (List.mem_filter.mp he).2
    rw [hkey] at this
    simp at this

theorem copyTreeFrom_keys_nodup (dst : FsPath) :
    ∀ (entries : List (FsPath × List Nat)) (fs : FileSys),
      (fs.map Prod.fst).Nodup → ((copyTreeFrom entries dst fs).map Prod.fst).Nodup := by
  intro entries
  induction entries with
  | nil => intro fs h; exact h
  | cons r rs ih =>
    intro fs h
    exact ih (fs.write (dst ++ r.1) r.2) (write_keys_nodup fs _ _ h)

theorem filesUnder_cons_strict (src : FsPath) (e : FsPath × List Nat) (fs : FileSys)
    (t : FsPath) (ht : src ++ t = e.1) (hne : src ≠ e.1) :
    FileSys.filesUnder (e :: fs) src = (t, e.2) :: FileSys.filesUnder fs src := by
  unfold FileSys.filesUnder
  have hcond : (src.isPrefixOf e.1 && !(src == e.1)) = true := by
    rw [Bool.and_eq_true]
    exact ⟨List.isPrefixOf_iff_prefix.mpr ⟨t, ht⟩, by simpa using hne⟩
  have hdrop : e.1.drop src.length = t := by
    rw [← ht]
    exact List.drop_left src t
  simp only [List.filterMap_cons, hcond, if_true, hdrop]

theorem filesUnder_cons_skip (src : FsPath) (e : FsPath × List Nat) (fs : FileSys)
    (hcond : ¬((src.isPrefixOf e.1 && !(src == e.1)) = true)) :
    FileSys.filesUnder (e :: fs) src = FileSys.filesUnder fs src := by
  unfold FileSys.filesUnder
  have hcond' : (src.isPrefixOf e.1 && !(src == e.1)) = false := by
    simpa using hcond
  simp only [List.filterMap_cons, hcond']
  rfl

theorem append_ne_self_of_ne_nil (src rel : FsPath) (hrel : rel ≠ []) :
    src ≠ src ++ rel :=
  fun h => hrel (List.self_eq_append_right.mp h)

theorem filesUnder_lookup (src rel : FsPath) (hrel : rel ≠ []) :
    ∀ fs : FileSys,
      ((fs.filesUnder src).find? (fun e => e.1 == rel)).map Prod.snd
        = fs.lookup (src ++ rel) := by
  intro fs
  induction fs with
  | nil => rfl
  | cons e fs ih =>
    by_cases hcond : (src.isPrefixOf e.1 && !(src == e.1)) = true
    · have hpre : src <+: e.1 := List.isPrefixOf_iff_prefix.mp
        (Bool.and_eq_true_iff.mp hcond).1
      obtain ⟨t, ht⟩ := hpre
      have hne : src ≠ e.1 := by
        have := (Bool.and_eq_true_iff.mp hcond).2
        simpa using this
      rw [filesUnder_cons_strict src e fs t ht hne, FileSys.lookup_cons]
      by_cases hteq : t = rel
      · subst hteq
        rw [List.find?_cons_of_pos _ (by simp), if_pos (by rw [← ht])]
        rfl
      · rw [List.find?_cons_of_neg _ (by simpa using hteq),
          if_neg (by rw [← ht]; intro h; exact hteq (List.append_cancel_left h))]
        exact ih
    · rw [filesUnder_cons_skip src e fs hcond, FileSys.lookup_cons]
      rw [if_neg ?hkey]
      case hkey =>
        intro hk
        apply hcond
        rw [Bool.and_eq_true]
        constructor
        · exact List.isPrefixOf_iff_prefix.mpr ⟨rel, hk.symm⟩
        · have : src ≠ e.1 := by
            rw [hk]
            exact append_ne_self_of_ne_nil src rel hrel
          simpa using this
      exact ih

theorem filesUnder_keys_nodup (src : FsPath) :
    ∀ fs : FileSys, (fs.map Prod.fst).Nodup →
      ((fs.filesUnder src).map Prod.fst).Nodup := by
  intro fs
  induction fs with
  | nil => intro _; simp [FileSys.filesUnder]
  | cons e fs ih =>
    intro hnodup
    rw [List.map_cons] at hnodup
    have hnd := List.nodup_cons.mp hnodup
    by_cases hcond : (src.isPrefixOf e.1 && !(src == e.1)) = true
    · have hpre : src <+: e.1 := List.isPrefixOf_iff_prefix.mp
        (Bool.and_eq_true_iff.mp hcond).1
      obtain ⟨t, ht⟩ := hpre
      have hne : src ≠ e.1 := by
        have := (Bool.and_eq_true_iff.mp hcond).2
        simpa using this
      rw [filesUnder_cons_strict src e fs t ht hne, List.map_cons, List.nodup_cons]
      refine ⟨?_, ih hnd.2⟩
      intro hmem
      obtain ⟨r, hr, hkey⟩ := List.mem_map.mp hmem
      obtain ⟨e', he', hfeq⟩ := List.mem_filterMap.mp hr
      by_cases hc2 : (src.isPrefixOf e'.1 && !(src == e'.1)) = true
      · rw [if_pos hc2] at hfeq
        obtain ⟨t', ht'⟩ := List.isPrefixOf_iff_prefix.mp
          (Bool.and_eq_true_iff.mp hc2).1
        have hdrop' : e'.1.drop src.length = t' := by
          rw [← ht']
          exact List.drop_left src t'
        have hr1 : r.1 = t' := by
          rw [← Option.some.inj hfeq]
          exact hdrop'
        have htt : t' = t := by rw [← hr1, hkey]
        have he1 : e'.1 = e.1 := by
          rw [← ht', ← ht, htt]
        exact hnd.1 (he1 ▸ List.mem_map_of_mem Prod.fst he')
      · rw [if_neg hc2] at hfeq
        exact Option.noConfusion hfeq
    · rw [filesUnder_cons_skip src e fs hcond]
      exact ih hnd.2

theorem crossTree_lookup (srcFs : FileSys) (src : FsPath) (dstFs : FileSys)
    (mid rel : FsPath)
    (hkeys : (srcFs.map Prod.fst).Nodup)
    (hfresh : ∀ e ∈ dstFs, ¬(mid <+: e.1))
    (hrel : rel ≠ []) :
    (copyTreeFrom (srcFs.filesUnder src) mid dstFs).lookup (mid ++ rel)
      = srcFs.lookup (src ++ rel) := by
  rw [lookup_copyTreeFrom mid (srcFs.filesUnder src) dstFs (mid ++ rel)
    (filesUnder_keys_nodup src srcFs hkeys)]
  have hpredeq : (fun e : FsPath × List Nat => mid ++ e.1 == mid ++ rel)
      = (fun e : FsPath × List Nat => e.1 == rel) := by
    funext e
    by_cases h : e.1 = rel
    · simp [h]
    · simp [h]
  rw [hpredeq]
  have hfu := filesUnder_lookup src rel hrel srcFs
  cases hfind : (srcFs.filesUnder src).find? (fun e => e.1 == rel) with
  | some e =>
    rw [hfind] at hfu
    simp only [Option.map_some'] at hfu
    exact hfu
  | none =>
    rw [hfind] at hfu
    simp only [Option.map_none'] at hfu
    rw [← hfu]
    cases hdl : dstFs.lookup (mid ++ rel) with
    | none => rfl
    | some c =>
      obtain ⟨e, he, hkey, _⟩ := FileSys.lookup_mem dstFs (mid ++ rel) c hdl
      exact absurd (by rw [hkey]; exact ⟨rel, rfl⟩) (hfresh e he)

theorem copyTreeFrom_lookup_outside (dst : FsPath)
    (entries : List (FsPath × List Nat)) (fs : FileSys) (q : FsPath)
    (hnodup : (entries.map Prod.fst).Nodup) (hq : ¬(dst <+: q)) :
    (copyTreeFrom entries dst fs).lookup q = fs.lookup q := by
  rw [lookup_copyTreeFrom dst entries fs q hnodup]
  have hnone : entries.find? (fun e => dst ++ e.1 == q) = none := by
    rw [List.find?_eq_none]
    intro e _
    simp only [beq_iff_eq]
    intro hcontra
    exact hq (hcontra ▸ ⟨e.1, rfl⟩)
  rw [hnone]

theorem crossTree_isDir (srcFs : FileSys) (src : FsPath) (dstFs : FileSys)
    (mid : FsPath) (hkeys : (srcFs.map Prod.fst).Nodup)
    (hdir : srcFs.isDir src = true) :
    (copyTreeFrom (srcFs.filesUnder src) mid dstFs).isDir mid = true := by
  obtain ⟨e₀, he₀, hpre₀, hne₀⟩ := (FileSys.isDir_iff srcFs src).mp hdir
  obtain ⟨t₀, ht₀⟩ := hpre₀
  have htne : t₀ ≠ [] := by
    intro h
    rw [h] at ht₀
    simp at ht₀
    exact hne₀ ht₀
  have hmemFU : (t₀, e₀.2) ∈ srcFs.filesUnder src := by
    unfold FileSys.filesUnder
    refine List.mem_filterMap.mpr ⟨e₀, he₀, ?_⟩
    have hcond : (src.isPrefixOf e₀.1 && !(src == e₀.1)) = true := by
      rw [Bool.and_eq_true]
      exact ⟨List.isPrefixOf_iff_prefix.mpr ⟨t₀, ht₀⟩, by simpa using hne₀⟩
    have hdrop : e₀.1.drop src.length = t₀ := by
      rw [← ht₀]
      exact List.drop_left src t₀
    rw [if_pos hcond, hdrop]
  cases hf : (srcFs.filesUnder src).find? (fun e => mid ++ e.1 == mid ++ t₀) with
  | none =>
    have := List.find?_eq_none.mp hf _ hmemFU
    simp at this
  | some e1 =>
    have hres : (copyTreeFrom (srcFs.filesUnder src) mid dstFs).lookup (mid ++ t₀)
        = some e1.2 := by
      rw [lookup_copyTreeFrom mid (srcFs.filesUnder src) dstFs (mid ++ t₀)
        (filesUnder_keys_nodup src srcFs hkeys), hf]
    obtain ⟨e2, he2, hkey2, _⟩ :=
      FileSys.lookup_mem (copyTreeFrom (srcFs.filesUnder src) mid dstFs)
        (mid ++ t₀) e1.2 hres
    refine (FileSys.isDir_iff _ mid).mpr ⟨e2, he2, ?_, ?_⟩
    · rw [hkey2]
      exact ⟨t₀, rfl⟩
    · rw [hkey2]
      exact append_ne_self_of_ne_nil mid t₀ htne

theorem write_isDir_false (fs : FileSys) (p : FsPath) (c : List Nat)
    (h : fs.isDir p = false) : (fs.write p c).isDir p = false := by
  cases hx : (fs.write p c).isDir p with
  | false => rfl
  | true =>
    obtain ⟨e, he, hpre, hne⟩ := (FileSys.isDir_iff _ p).mp hx
    rcases mem_write _ _ _ _ he with h1 | h1
    · have := (FileSys.isDir_iff fs p).mpr ⟨e, h1, hpre, hne⟩
      rw [this] at h
      exact Bool.noConfusion h
    · rw [h1] at hne
      exact absurd rfl hne

theorem copyObj_file_roundtrip (fs : FileSys) (src mid dst : FsPath) (c : List Nat)
    (hfile : fs.lookup src = some c) (hsrcdir : fs.isDir src = false)
    (hmiddir : fs.isDir mid = false) :
    copyObj fs src fs mid = .ok (fs.write mid c) ∧
    copyObj (fs.write mid c) mid (fs.write mid c) dst
      = .ok ((fs.write mid c).write dst c) ∧
    ((fs.write mid c).write dst c).lookup dst = some c := by
  refine ⟨?_, ?_, ?_⟩
  · simp [copyObj, hsrcdir, hfile]
  · have h1 := write_isDir_false fs mid c hmiddir
    have h2 : (fs.write mid c).lookup mid = some c := by
      rw [FileSys.lookup_write, if_pos rfl]
    simp [copyObj, h1, h2]
  · rw [FileSys.lookup_write, if_pos rfl]

theorem copyObj_tree_roundtrip (fs : FileSys) (src mid dst : FsPath)
    (hkeys : (fs.map Prod.fst).Nodup) (hdir : fs.isDir src = true)
    (hmidfresh : ∀ e ∈ fs, ¬(mid <+: e.1))
    (hdstfresh : ∀ e ∈ fs, ¬(dst <+: e.1))
    (hdisj1 : ¬(mid <+: dst)) (hdisj2 : ¬(dst <+: mid)) :
    ∃ fs1 fs2,
      copyObj fs src fs mid = .ok fs1 ∧
      copyObj fs1 mid fs1 dst = .ok fs2 ∧
      ∀ rel, rel ≠ [] → fs2.lookup (dst ++ rel) = fs.lookup (src ++ rel) := by
  refine ⟨copyTreeFrom (fs.filesUnder src) mid fs,
    copyTreeFrom ((copyTreeFrom (fs.filesUnder src) mid fs).filesUnder mid) dst
      (copyTreeFrom (fs.filesUnder src) mid fs), ?_, ?_, ?_⟩
  · simp [copyObj, hdir]
  · have hdir1 := crossTree_isDir fs src fs mid hkeys hdir
    simp [copyObj, hdir1]
  · intro rel hrel
    have hkeys1 : ((copyTreeFrom (fs.filesUnder src) mid fs).map Prod.fst).Nodup :=
      copyTreeFrom_keys_nodup mid _ fs hkeys
    have hfresh1 : ∀ e ∈ copyTreeFrom (fs.filesUnder src) mid fs, ¬(dst <+: e.1) := by
      intro e he hdste
      rcases mem_copyTreeFrom mid _ fs e he with h1 | ⟨r, _, hkey⟩
      · exact hdstfresh e h1 hdste
      · have hmide : mid <+: e.1 := by
          rw [hkey]
          exact ⟨r.1, rfl⟩
        rcases List.prefix_or_prefix_of_prefix hdste hmide with h2 | h2
        · exact hdisj2 h2
        · exact hdisj1 h2
    rw [crossTree_lookup (copyTreeFrom (fs.filesUnder src) mid fs) mid
      (copyTreeFrom (fs.filesUnder src) mid fs) dst rel hkeys1 hfresh1 hrel]
    exact crossTree_lookup fs src fs mid rel hkeys hmidfresh hrel

theorem dropLast_append_of_getLast? (l : FsPath) (b : String)
    (h : l.getLast? = some b) : l.dropLast ++ [b] = l := by
  have hne : l ≠ [] := by
    intro hl
    rw [hl] at h
    simp at h
  have hb : l.getLast hne = b := by
    have := List.getLast?_eq_getLast l hne
    rw [h] at this
    exact (Option.some.inj this).symm
  rw [← hb]
  exact List.dropLast_append_getLast hne

/-- C8 counterexample: through the container backend, `copy_to` of the host
file `h/a` to in-environment path `e/b` followed by `copy_from(e/b, h2/c)`
does not reproduce the content at `h2/c` — `copy_from` extracts the archive
entry, which is named after the environment path's basename `b`, into `h2`,
so the bytes land at `h2/b` and nothing at all is created at `h2/c`. -/
theorem C8_copy_roundtrip_counterexample :
    dockerCopyTo [(["h", "a"], [1, 2, 3])] [] ["h", "a"] ["e", "b"]
      = .ok [(["e", "b"], [1, 2, 3])] ∧
    dockerCopyFrom [(["e", "b"], [1, 2, 3])] [(["h", "a"], [1, 2, 3])]
        ["e", "b"] ["h2", "c"]
      = .ok [(["h", "a"], [1, 2, 3]), (["h2", "b"], [1, 2, 3])] ∧
    FileSys.lookup [(["h", "a"], [1, 2, 3]), (["h2", "b"], [1, 2, 3])]
        ["h2", "c"] = none ∧
    FileSys.lookup [(["h", "a"], [1, 2, 3]), (["h2", "b"], [1, 2, 3])]
        ["h2", "b"] = some [1, 2, 3] := by
  refine ⟨?_, ?_, ?_, ?_⟩ <;> rfl

/-- C8 (amended): performing `copy_to(src, p)` followed by `copy_from(p, dst)`
reproduces `src`'s byte content at the host path `dst` for the
namespace-sandbox and direct backends — for a single file whenever the
intermediate in-environment location is not an existing directory, and for a
directory tree whenever the intermediate and destination regions are fresh
and disjoint.  For the container backend the round trip reproduces the
content at `dirname(dst) ++ [basename(p)]` instead (both for a file and for a
tree), which coincides with `dst` exactly when `basename(dst) =
basename(p)`. -/
theorem C8_copy_roundtrip_amended :
    (∀ (sysroot : FsPath) (fs : FileSys) (hostSrc envP dst : FsPath) (c : List Nat),
      fs.lookup hostSrc = some c → fs.isDir hostSrc = false →
      fs.isDir (sysroot ++ envP) = false →
      ∃ fs1 fs2, bwrapCopyTo sysroot fs hostSrc envP = .ok fs1 ∧
        bwrapCopyFrom sysroot fs1 envP dst = .ok fs2 ∧
        fs2.lookup dst = some c) ∧
    (∀ (fs : FileSys) (hostSrc envP dst : FsPath) (c : List Nat),
      fs.lookup hostSrc = some c → fs.isDir hostSrc = false →
      fs.isDir envP = false →
      ∃ fs1 fs2, noopCopyTo fs hostSrc envP = .ok fs1 ∧
        noopCopyFrom fs1 envP dst = .ok fs2 ∧
        fs2.lookup dst = some c) ∧
    (∀ (sysroot : FsPath) (fs : FileSys) (hostSrc envP dst : FsPath),
      (fs.map Prod.fst).Nodup → fs.isDir hostSrc = true →
      (∀ e ∈ fs, ¬((sysroot ++ envP) <+: e.1)) →
      (∀ e ∈ fs, ¬(dst <+: e.1)) →
      ¬((sysroot ++ envP) <+: dst) → ¬(dst <+: (sysroot ++ envP)) →
      ∃ fs1 fs2, bwrapCopyTo sysroot fs hostSrc envP = .ok fs1 ∧
        bwrapCopyFrom sysroot fs1 envP dst = .ok fs2 ∧
        ∀ rel, rel ≠ [] → fs2.lookup (dst ++ rel) = fs.lookup (hostSrc ++ rel)) ∧
    (∀ (fs : FileSys) (hostSrc envP dst : FsPath),
      (fs.map Prod.fst).Nodup → fs.isDir hostSrc = true →
      (∀ e ∈ fs, ¬(envP <+: e.1)) →
      (∀ e ∈ fs, ¬(dst <+: e.1)) →
      ¬(envP <+: dst) → ¬(dst <+: envP) →
      ∃ fs1 fs2, noopCopyTo fs hostSrc envP = .ok fs1 ∧
        noopCopyFrom fs1 envP dst = .ok fs2 ∧
        ∀ rel, rel ≠ [] → fs2.lookup (dst ++ rel) = fs.lookup (hostSrc ++ rel)) ∧
    (∀ (host container : FileSys) (hostSrc envP dstHost : FsPath) (c : List Nat)
        (b : String),
      envP.getLast? = some b →
      host.lookup hostSrc = some c → host.isDir hostSrc = false →
      container.isDir envP = false →
      ∃ cont1 host1, dockerCopyTo host container hostSrc envP = .ok cont1 ∧
        dockerCopyFrom cont1 host envP dstHost = .ok host1 ∧
        host1.lookup (dstHost.dropLast ++ [b]) = some c ∧
        (dstHost.getLast? = some b → host1.lookup dstHost = some c)) ∧
    (∀ (host container : FileSys) (hostSrc envP dstHost : FsPath) (b : String),
      envP.getLast? = some b →
      (host.map Prod.fst).Nodup → (container.map Prod.fst).Nodup →
      host.isDir hostSrc = true →
      (∀ e ∈ container, ¬(envP <+: e.1)) →
      (∀ e ∈ host, ¬((dstHost.dropLast ++ [b]) <+: e.1)) →
      ∃ cont1 host1, dockerCopyTo host container hostSrc envP = .ok cont1 ∧
        dockerCopyFrom cont1 host envP dstHost = .ok host1 ∧
        ∀ rel, rel ≠ [] →
          host1.lookup ((dstHost.dropLast ++ [b]) ++ rel)
            = host.lookup (hostSrc ++ rel)) := by
  refine ⟨?_, ?_, ?_, ?_, ?_, ?_⟩
  · intro sysroot fs hostSrc envP dst c hfile hsrcdir hmiddir
    have h := copyObj_file_roundtrip fs hostSrc (sysroot ++ envP) dst c
      hfile hsrcdir hmiddir
    exact ⟨fs.write (sysroot ++ envP) c, (fs.write (sysroot ++ envP) c).write dst c,
      h.1, h.2.1, h.2.2⟩
  · intro fs hostSrc envP dst c hfile hsrcdir hmiddir
    have h := copyObj_file_roundtrip fs hostSrc envP dst c hfile hsrcdir hmiddir
    exact ⟨fs.write envP c, (fs.write envP c).write dst c, h.1, h.2.1, h.2.2⟩
  · intro sysroot fs hostSrc envP dst hkeys hdir hmidfresh hdstfresh hd1 hd2
    obtain ⟨fs1, fs2, h1, h2, h3⟩ := copyObj_tree_roundtrip fs hostSrc
      (sysroot ++ envP) dst hkeys hdir hmidfresh hdstfresh hd1 hd2
    exact ⟨fs1, fs2, h1, h2, h3⟩
  · intro fs hostSrc envP dst hkeys hdir hmidfresh hdstfresh hd1 hd2
    obtain ⟨fs1, fs2, h1, h2, h3⟩ := copyObj_tree_roundtrip fs hostSrc
      envP dst hkeys hdir hmidfresh hdstfresh hd1 hd2
    exact ⟨fs1, fs2, h1, h2, h3⟩
  · intro host container hostSrc envP dstHost c b hb hfile hsrcdir hmiddir
    have hEnv : envP.dropLast ++ [b] = envP := dropLast_append_of_getLast? envP b hb
    refine ⟨container.write envP c, host.write (dstHost.dropLast ++ [b]) c,
      ?_, ?_, ?_, ?_⟩
    · unfold dockerCopyTo
      rw [hb]
      show copyObj host hostSrc container (envP.dropLast ++ [b]) = _
      rw [hEnv]
      simp [copyObj, hsrcdir, hfile]
    · unfold dockerCopyFrom
      rw [hb]
      show copyObj (container.write envP c) envP host (dstHost.dropLast ++ [b]) = _
      have h1 := write_isDir_false container envP c hmiddir
      have h2 : (container.write envP c).lookup envP = some c := by
        rw [FileSys.lookup_write, if_pos rfl]
      simp [copyObj, h1, h2]
    · rw [FileSys.lookup_write, if_pos rfl]
    · intro hdb
      have hD : dstHost.dropLast ++ [b] = dstHost :=
        dropLast_append_of_getLast? dstHost b hdb
      rw [hD, FileSys.lookup_write, if_pos rfl]
  · intro host container hostSrc envP dstHost b hb hkeysH hkeysC hdir
      hcontfresh hhostfresh
    have hEnv : envP.dropLast ++ [b] = envP := dropLast_append_of_getLast? envP b hb
    refine ⟨copyTreeFrom (host.filesUnder hostSrc) envP container,
      copyTreeFrom ((copyTreeFrom (host.filesUnder hostSrc) envP
        container).filesUnder envP) (dstHost.dropLast ++ [b]) host, ?_, ?_, ?_⟩
    · unfold dockerCopyTo
      rw [hb]
      show copyObj host hostSrc container (envP.dropLast ++ [b]) = _
      rw [hEnv]
      simp [copyObj, hdir]
    · unfold dockerCopyFrom
      rw [hb]
      have hdir1 := crossTree_isDir host hostSrc container envP hkeysH hdir
      show copyObj (copyTreeFrom (host.filesUnder hostSrc) envP container) envP
        host (dstHost.dropLast ++ [b]) = _
      simp [copyObj, hdir1]
    · intro rel hrel
      have hkeys1 : ((copyTreeFrom (host.filesUnder hostSrc) envP
          container).map Prod.fst).Nodup :=
        copyTreeFrom_keys_nodup envP _ container hkeysC
      rw [crossTree_lookup (copyTreeFrom (host.filesUnder hostSrc) envP container)
        envP host (dstHost.dropLast ++ [b]) rel hkeys1 hhostfresh hrel]
      exact crossTree_lookup host hostSrc container envP rel hkeysH hcontfresh hrel

/-- Witness for the amended C8 theorem: a one-file round trip through the
namespace backend reproduces the bytes at the destination, and a container
round trip with matching basenames reproduces them at the destination as
well. -/
theorem C8_copy_roundtrip_amended_witness :
    (∃ fs1 fs2,
      bwrapCopyTo ["s"] [(["h", "f"], [7])] ["h", "f"] ["t"] = .ok fs1 ∧
      bwrapCopyFrom ["s"] fs1 ["t"] ["o", "g"] = .ok fs2 ∧
      fs2.lookup ["o", "g"] = some [7]) ∧
    (∃ cont1 host1,
      dockerCopyTo [(["h", "f"], [7])] [] ["h", "f"] ["e", "b"] = .ok cont1 ∧
      dockerCopyFrom cont1 [(["h", "f"], [7])] ["e", "b"] ["h2", "b"] = .ok host1 ∧
      host1.lookup ["h2", "b"] = some [7]) := by
  constructor
  · exact C8_copy_roundtrip_amended.1 ["s"] [(["h", "f"], [7])] ["h", "f"] ["t"]
      ["o", "g"] [7] rfl rfl rfl
  · obtain ⟨cont1, host1, h1, h2, h3, h4⟩ :=
      C8_copy_roundtrip_amended.2.2.2.2.1 [(["h", "f"], [7])] [] ["h", "f"]
        ["e", "b"] ["h2", "b"] [7] "b" rfl rfl rfl rfl
    exact ⟨cont1, host1, h1, h2, h4 rfl⟩
